import Mathlib

/-!
# Verification of the resumable cached pagination engine and search/filter engine

Shallow embedding of the core of `gpts-compliance-insight`:

* `src/gci/models/cache.py` — the cache data model (`CacheCheckpoint`, `CachePage`,
  `CompleteCache`);
* `src/gci/cache/gpt.py` — `GPTCache`, the per-workspace page cache;
* `src/gci/api/client.py` — `ComplianceAPIClient._make_request` status handling,
  `_load_cached_data`, `_save_to_cache` and `_paginate`;
* `src/gci/core/search.py` — `GPTSearcher` date filtering, fuzzy search,
  snippet/highlight computation and its in-place record mutation;
* `src/gci/exceptions.py` — the typed error taxonomy raised by the request layer.

Modelling conventions:

* Python strings are `String`; timestamps (`time.time()`) are passed in
  explicitly as a `Nat` parameter `now` (wall-clock values never influence the
  control flow of the verified code paths).
* Python truthiness of an optional string (`if cursor:`) is `truthyStr`:
  a value is truthy iff it is present and nonempty.
* The diskcache store used by `GPTCache` only ever touches the keys
  `page_<n>`, `"checkpoint"` and `"complete"`, which are pairwise distinct
  strings; the store is therefore modelled with one field per key family.
* External libraries (requests/pydantic/rapidfuzz/dateparser) are modelled at
  their interface: serialization, scoring, alignment and date parsing are
  opaque function parameters; all control flow and data handling of the
  repository code is embedded from the source.
-/

set_option maxHeartbeats 1000000
set_option linter.unreachableTactic false
set_option linter.unusedTactic false

/-- A raw record returned by the paginated API.  The pagination engine only
ever reads the `"id"` field of a record (`results[-1]["id"]` in
`_load_cached_data`), so a record is modelled by its id. -/
structure Rec where
  id : String
deriving DecidableEq, Repr

/-- `CacheCheckpoint` from `src/gci/models/cache.py`. -/
structure CacheCheckpoint where
  last_gpt_id : String
  last_page : Nat
  total_items : Nat
  timestamp : Nat
deriving DecidableEq, Repr

/-- `CachePage` from `src/gci/models/cache.py`. -/
structure CachePage where
  page : Nat
  data : List Rec
  last_id : Option String
  count : Nat
  timestamp : Nat
deriving DecidableEq, Repr

/-- `CompleteCache` from `src/gci/models/cache.py`. -/
structure CompleteCache where
  workspace_id : String
  total_items : Nat
  total_pages : Nat
  cached_at : Nat
  data : List Rec
deriving DecidableEq, Repr

/-- The diskcache key/value store backing one workspace's `GPTCache`
(`Cache(str(cache_dir))` in `src/gci/cache/gpt.py`).  The cache module only
uses the keys `f"page_{page_num}"`, `"checkpoint"` and `"complete"`, which are
pairwise distinct name families, so the store is modelled by one field per
family. -/
structure PStore where
  pages : Nat → Option CachePage
  checkpoint : Option CacheCheckpoint
  complete : Option CompleteCache

/-- The empty cache directory: no entry under any key. -/
def PStore.empty : PStore :=
  { pages := fun _ => none, checkpoint := none, complete := none }

/-- Python truthiness of an optional string (`if cursor:` / `if resume_from:` /
`if last_id:` in the source): truthy iff present and nonempty. -/
def truthyStr : Option String → Bool
  | none => false
  | some s => s ≠ ""

namespace GPTCache

/-- `GPTCache.save_page`: builds a `CachePage` and stores it under
`f"page_{page_num}"`. -/
def save_page (s : PStore) (page_num : Nat) (data : List Rec)
    (last_id : Option String) (now : Nat) : PStore :=
  { s with pages := fun m =>
      if m = page_num then
        some ({ page := page_num, data := data, last_id := last_id,
                count := data.length, timestamp := now } : CachePage)
      else s.pages m }

/-- `GPTCache.save_checkpoint`: overwrites the single `"checkpoint"` entry. -/
def save_checkpoint (s : PStore) (last_gpt_id : String) (page_num : Nat)
    (total_items : Nat) (now : Nat) : PStore :=
  { s with checkpoint := some ({ last_gpt_id := last_gpt_id, last_page := page_num,
                                 total_items := total_items, timestamp := now } : CacheCheckpoint) }

/-- `GPTCache.load_checkpoint`: returns the stored checkpoint when present.
(The exception-swallowing aspect of this operation is analysed separately on
the fault-injecting model `FaultyStore` below; on a healthy store the
operation is a plain read.) -/
def load_checkpoint (s : PStore) : Option CacheCheckpoint :=
  s.checkpoint

/-- Loop body of `GPTCache.load_cached_pages`: starting at page `k` with
`remaining` pages still allowed by the `up_to_page` bound, read `page_k`,
`page_{k+1}`, … and concatenate their `data`, stopping when the bound is
reached (`page_num > up_to_page` in the source, i.e. `remaining = 0`) or at
the first missing page. -/
def loadPagesFrom (s : PStore) : Nat → Nat → List Rec
  | 0, _ => []
  | remaining + 1, k =>
      match s.pages k with
      | some cp => cp.data ++ loadPagesFrom s remaining (k + 1)
      | none => []

/-- `GPTCache.load_cached_pages(up_to_page)` for a positive page bound (every
call site in the fetcher passes `checkpoint.last_page`).  Pages are read
contiguously from 1; a gap truncates the result. -/
def load_cached_pages (s : PStore) (up_to : Nat) : List Rec :=
  loadPagesFrom s up_to 1

/-- `GPTCache.remove_checkpoint`: deletes the `"checkpoint"` entry. -/
def remove_checkpoint (s : PStore) : PStore :=
  { s with checkpoint := none }

/-- `GPTCache.save_complete_results`: writes the `CompleteCache` under
`"complete"`. -/
def save_complete_results (s : PStore) (workspace_id : String)
    (results : List Rec) (total_pages : Nat) (now : Nat) : PStore :=
  { s with complete := some ({ workspace_id := workspace_id, total_items := results.length,
                               total_pages := total_pages, cached_at := now,
                               data := results } : CompleteCache) }

/-- `GPTCache.has_complete_cache`: `"complete" in self.cache`. -/
def has_complete_cache (s : PStore) : Bool :=
  s.complete.isSome

/-- `GPTCache.has_cache`: checkpoint, complete or page 1 present. -/
def has_cache (s : PStore) : Bool :=
  s.checkpoint.isSome || s.complete.isSome || (s.pages 1).isSome

end GPTCache

/-! ## The paginating fetcher (`ComplianceAPIClient._paginate`) -/

/-- `ListResponse` from `src/gci/api/client.py` (generic over raw records). -/
structure ListResponse where
  data : List Rec
  has_more : Bool := false
  last_id : Option String := none
deriving DecidableEq, Repr

/-- Errors that can escape one pagination run: an API/transport error raised
by `_fetch_page` (propagating out of the loop), or exhaustion of the loop fuel
(the model's representation of a run that never reaches a terminal page). -/
inductive PagErr
  | api
  | fuelExhausted
deriving DecidableEq, Repr

/-- The remote paged endpoint as seen through `_fetch_page`: a function from
the `after` query parameter to either a parsed `ListResponse` or a raised
error. -/
abbrev ApiFun := Option String → Except Unit ListResponse

namespace Client

/-- `ComplianceAPIClient._load_cached_data`: seed accumulator, page counter and
cursor from the persisted checkpoint and cached pages. -/
def load_cached_data (s : PStore) (resume_from : String) :
    List Rec × Nat × Option String :=
  match GPTCache.load_checkpoint s with
  | none => ([], 0, none)
  | some cp =>
      let results := GPTCache.load_cached_pages s cp.last_page
      let cursor : String :=
        match results.getLast? with
        | some r => r.id
        | none => resume_from
      (results, cp.last_page, some cursor)

/-- `ComplianceAPIClient._save_to_cache`: persist one page and overwrite the
checkpoint, guarded by the cache handle and truthiness of `data` and
`last_id`. -/
def save_to_cache (cacheActive : Bool) (s : PStore) (page : Nat)
    (data : List Rec) (last_id : String) (total_results : Nat) (now : Nat) :
    PStore :=
  if cacheActive ∧ data ≠ [] ∧ last_id ≠ "" then
    GPTCache.save_checkpoint
      (GPTCache.save_page s page data (some last_id) now)
      last_id page total_results now
  else s

/-- The `while True` fetch loop of `_paginate`.  State: accumulated `results`,
the `cursor` variable, the persistent `params["after"]` value, the page
counter and the cache store.  Each iteration fetches one page, extends the
accumulator, conditionally persists page + checkpoint, and terminates when
`has_more` or `last_id` is falsy.  `fuel` bounds the number of iterations; the
claims supply enough fuel for every run they quantify over. -/
def paginateLoop (api : ApiFun) (now : Nat) (cacheActive : Bool) :
    Nat → List Rec → Option String → Option String → Nat → PStore →
    PStore × Except PagErr (List Rec × Nat)
  | 0, _, _, _, _, s => (s, .error .fuelExhausted)
  | fuel + 1, results, cursor, afterParam, page, s =>
    let afterParam := if truthyStr cursor then cursor else afterParam
    match api afterParam with
    | .error _ => (s, .error .api)
    | .ok resp =>
        let results := results ++ resp.data
        let page := page + 1
        let s :=
          if cacheActive ∧ resp.data ≠ [] ∧ truthyStr resp.last_id then
            save_to_cache cacheActive s page resp.data
              (resp.last_id.getD "") results.length now
          else s
        if ¬resp.has_more ∨ ¬truthyStr resp.last_id then (s, .ok (results, page))
        else paginateLoop api now cacheActive fuel results resp.last_id afterParam page s

/-- Entry seeding of `_paginate` (lines 238–259): `results = []`, `page = 0`,
`cursor = resume_from`, overwritten from the cache when both a cache namespace
and a truthy resume cursor are supplied. -/
def paginateSeed (cacheActive : Bool) (resume_from : Option String)
    (s : PStore) : List Rec × Nat × Option String :=
  if cacheActive ∧ truthyStr resume_from then
    load_cached_data s (resume_from.getD "")
  else ([], 0, resume_from)

/-- Final cache operations of `_paginate` (lines 287–290): on a loop that
returned normally with a nonempty accumulator and an active cache, persist the
complete results and delete the checkpoint; a raised error passes through with
the store as the loop left it. -/
def paginateFinish (cacheActive : Bool) (cache_key : Option String) (now : Nat)
    (out : PStore × Except PagErr (List Rec × Nat)) :
    PStore × Except PagErr (List Rec) :=
  match out with
  | (s', .error e) => (s', .error e)
  | (s', .ok (results, page)) =>
      if cacheActive ∧ results ≠ [] then
        (GPTCache.remove_checkpoint
          (GPTCache.save_complete_results s' (cache_key.getD "") results page now),
         .ok results)
      else (s', .ok results)

/-- `ComplianceAPIClient._paginate`: seed from cache, run the fetch loop, and
on completion with a nonempty accumulator persist the complete results and
delete the checkpoint.  The returned store is the on-disk cache state when the
call returns or when the raised error escapes. -/
def paginate (api : ApiFun) (fuel : Nat) (now : Nat)
    (cache_key : Option String) (resume_from : Option String) (s : PStore) :
    PStore × Except PagErr (List Rec) :=
  match paginateSeed (truthyStr cache_key) resume_from s with
  | (results₀, page₀, cursor₀) =>
      paginateFinish (truthyStr cache_key) cache_key now
        (paginateLoop api now (truthyStr cache_key) fuel results₀ cursor₀ none page₀ s)

end Client

/-! ## Concrete scenario material (claims C2, C3, C4) -/

/-- The three records of the §8 scenario. -/
def recG1 : Rec := ⟨"g1"⟩

/-- Second scenario record. -/
def recG2 : Rec := ⟨"g2"⟩

/-- Third scenario record. -/
def recG3 : Rec := ⟨"g3"⟩

/-- The scenario mock API: first page `[g1, g2]` with `has_more = true`,
`last_id = "g2"`; after cursor `"g2"` the page `[g3]` with `has_more = false`,
`last_id = "g3"`. -/
def apiAcme : ApiFun := fun c =>
  match c with
  | none => .ok { data := [recG1, recG2], has_more := true, last_id := some "g2" }
  | some "g2" => .ok { data := [recG3], has_more := false, last_id := some "g3" }
  | _ => .ok { data := [], has_more := false, last_id := none }

/-- C2: with a cache namespace for workspace "acme" and an API returning the
page `[g1, g2]` (`has_more = true`, `last_id = "g2"`) followed by `[g3]`
(`has_more = false`, `last_id = "g3"`), the download produces exactly
`[g1, g2, g3]` in that order, persists cache entries `page_1` and `page_2`,
persists a complete record with `total_items = 3`, and leaves no checkpoint
entry. -/
theorem C2_acme_scenario :
    (Client.paginate apiAcme 5 0 (some "acme") none PStore.empty).2 =
      .ok [recG1, recG2, recG3] ∧
    (Client.paginate apiAcme 5 0 (some "acme") none PStore.empty).1.pages 1 =
      some { page := 1, data := [recG1, recG2], last_id := some "g2",
             count := 2, timestamp := 0 } ∧
    (Client.paginate apiAcme 5 0 (some "acme") none PStore.empty).1.pages 2 =
      some { page := 2, data := [recG3], last_id := some "g3",
             count := 1, timestamp := 0 } ∧
    (Client.paginate apiAcme 5 0 (some "acme") none PStore.empty).1.complete =
      some { workspace_id := "acme", total_items := 3, total_pages := 2,
             cached_at := 0, data := [recG1, recG2, recG3] } ∧
    (Client.paginate apiAcme 5 0 (some "acme") none PStore.empty).1.checkpoint = none :=
  ⟨rfl, rfl, rfl, rfl, rfl⟩

/-- C3 amended claim: every pagination run with an active cache namespace that
terminates normally *with a nonempty accumulated record list* persists the
full accumulator as the CompleteCache and deletes the Checkpoint, so that
afterwards `has_complete_cache()` is true and `load_checkpoint()` is absent.
(The run that terminates normally with zero accumulated records persists
nothing — see the counterexample.) -/
theorem C3_complete_then_no_checkpoint (api : ApiFun) (fuel now : Nat)
    (ck : String) (hck : ck ≠ "") (resume_from : Option String)
    (s s' : PStore) (res : List Rec)
    (hrun : Client.paginate api fuel now (some ck) resume_from s = (s', .ok res))
    (hne : res ≠ []) :
    (∃ tp, s'.complete =
      some { workspace_id := ck, total_items := res.length, total_pages := tp,
             cached_at := now, data := res }) ∧
    GPTCache.has_complete_cache s' = true ∧
    GPTCache.load_checkpoint s' = none := by
  have hca : truthyStr (some ck) = true := by simpa [truthyStr] using hck
  rcases hseed : Client.paginateSeed (truthyStr (some ck)) resume_from s with ⟨r0, p0, c0⟩
  rcases hloop : Client.paginateLoop api now (truthyStr (some ck)) fuel r0 c0 none p0 s
    with ⟨s₁, r⟩
  unfold Client.paginate at hrun
  rw [hseed] at hrun
  dsimp only at hrun
  rw [hloop] at hrun
  cases r with
  | error e => simp [Client.paginateFinish] at hrun
  | ok rp =>
    obtain ⟨results, page⟩ := rp
    by_cases hres : results = []
    · subst hres
      simp [Client.paginateFinish] at hrun
      exact absurd hrun.2 hne
    · simp [Client.paginateFinish, hca, hres] at hrun
      obtain ⟨hs', hresEq⟩ := hrun
      subst hresEq
      refine ⟨⟨page, ?_⟩, ?_, ?_⟩ <;>
        simp [← hs', GPTCache.remove_checkpoint, GPTCache.save_complete_results,
          GPTCache.has_complete_cache, GPTCache.load_checkpoint]

/-- Witness for `C3_complete_then_no_checkpoint` at the concrete acme run. -/
theorem C3_complete_then_no_checkpoint_witness :
    (("acme" : String) ≠ "" ∧
     Client.paginate apiAcme 5 0 (some "acme") none PStore.empty =
       ((Client.paginate apiAcme 5 0 (some "acme") none PStore.empty).1,
        .ok [recG1, recG2, recG3]) ∧
     ([recG1, recG2, recG3] : List Rec) ≠ []) ∧
    GPTCache.has_complete_cache
      (Client.paginate apiAcme 5 0 (some "acme") none PStore.empty).1 = true ∧
    GPTCache.load_checkpoint
      (Client.paginate apiAcme 5 0 (some "acme") none PStore.empty).1 = none :=
  ⟨⟨by decide, rfl, by decide⟩,
   (C3_complete_then_no_checkpoint apiAcme 5 0 "acme" (by decide) none
      PStore.empty _ _ rfl (by decide)).2⟩

/-- A run against an API whose very first page is empty and terminal. -/
def apiEmptyRun : ApiFun := fun _ => .ok { data := [], has_more := false, last_id := none }

/-- A pre-existing (stale) checkpoint left by some earlier interrupted run. -/
def cpStale : CacheCheckpoint :=
  { last_gpt_id := "g9", last_page := 4, total_items := 40, timestamp := 7 }

/-- A store holding only the stale checkpoint. -/
def staleStore : PStore :=
  { pages := fun _ => none, checkpoint := some cpStale, complete := none }

/-- Counterexample to C3 as stated: a pagination run with the active cache
namespace `"acme"` that terminates normally (empty terminal page, no
exception) but persists no CompleteCache and does not delete the checkpoint:
afterwards `has_complete_cache()` is false and `load_checkpoint()` still
returns the stale checkpoint.  The final cache operations of `_paginate` are
guarded by `if cache and results:`, so a run whose accumulator is empty skips
them. -/
theorem C3_counterexample :
    (Client.paginate apiEmptyRun 3 0 (some "acme") none staleStore).2 = .ok [] ∧
    GPTCache.has_complete_cache
      (Client.paginate apiEmptyRun 3 0 (some "acme") none staleStore).1 = false ∧
    GPTCache.load_checkpoint
      (Client.paginate apiEmptyRun 3 0 (some "acme") none staleStore).1 = some cpStale :=
  ⟨rfl, rfl, rfl⟩

/-- C4 amended claim: for a run started with a cache namespace and a truthy
caller-supplied resume cursor, the seeding step behaves as follows.  When a
checkpoint exists, the accumulator and page counter are seeded from the cached
pages up to the checkpoint's last page and the live cursor is the id of the
last cached record, falling back to the caller-supplied resume cursor when the
checkpoint exists but no cached records could be loaded.  When *no checkpoint*
exists, nothing is seeded and the live cursor is absent — not the
caller-supplied resume cursor (contrary to the claim as stated; see the
counterexample). -/
theorem C4_seeding (s : PStore) (rf : String) (hrf : rf ≠ "") :
    (GPTCache.load_checkpoint s = none →
      Client.paginateSeed true (some rf) s = ([], 0, none)) ∧
    (∀ cp, GPTCache.load_checkpoint s = some cp →
      ∀ r, (GPTCache.load_cached_pages s cp.last_page).getLast? = some r →
        Client.paginateSeed true (some rf) s =
          (GPTCache.load_cached_pages s cp.last_page, cp.last_page, some r.id)) ∧
    (∀ cp, GPTCache.load_checkpoint s = some cp →
      GPTCache.load_cached_pages s cp.last_page = [] →
        Client.paginateSeed true (some rf) s = ([], cp.last_page, some rf)) := by
  have htr : truthyStr (some rf) = true := by simpa [truthyStr] using hrf
  refine ⟨?_, ?_, ?_⟩
  · intro hnone
    simp [Client.paginateSeed, htr, Client.load_cached_data, hnone]
  · intro cp hcp r hlast
    simp [Client.paginateSeed, htr, Client.load_cached_data, hcp, hlast]
  · intro cp hcp hempty
    simp [Client.paginateSeed, htr, Client.load_cached_data, hcp, hempty]

/-- A store as left by an interrupted run: one cached page and a checkpoint. -/
def seedWitStore : PStore :=
  { pages := fun m =>
      if m = 1 then
        some { page := 1, data := [recG1, recG2], last_id := some "g2",
               count := 2, timestamp := 0 }
      else none,
    checkpoint := some { last_gpt_id := "g2", last_page := 1, total_items := 2,
                         timestamp := 0 },
    complete := none }

/-- Witness for `C4_seeding`: on `seedWitStore` the seeding step loads the
cached page, sets the page counter to 1 and the live cursor to the id of the
last cached record. -/
theorem C4_seeding_witness :
    (("rc" : String) ≠ "") ∧
    Client.paginateSeed true (some "rc") seedWitStore =
      (GPTCache.load_cached_pages seedWitStore 1, 1, some "g2") :=
  ⟨by decide,
   (C4_seeding seedWitStore "rc" (by decide)).2.1
     ⟨"g2", 1, 2, 0⟩ rfl recG2 (by decide)⟩

/-- Counterexample to C4 as stated: a run started with a cache namespace and
the caller-supplied resume cursor `"c"` against a store holding *no*
checkpoint (and no cached records) seeds a live cursor of `none`, not the
caller-supplied resume cursor `"c"`. -/
theorem C4_counterexample :
    Client.paginateSeed true (some "c") PStore.empty = ([], 0, none) ∧
    (none : Option String) ≠ some "c" :=
  ⟨rfl, by decide⟩

/-! ## Claim C1: resume correctness of the paginating fetcher -/

/-- The id of the last record of a page — the value the paged API reports as
`last_id` and the fetcher uses as the continuation cursor. -/
def lastRecId (p : List Rec) : Option String := p.getLast?.map Rec.id

/-- Response of a deterministic mock paged API at 0-based page index `i`: the
page's records, `has_more` true iff a further page exists, `last_id` the id of
the page's last record; past the final page, an empty terminal response. -/
def pageResponse (pages : List (List Rec)) (i : Nat) : ListResponse :=
  match pages[i]? with
  | some p => { data := p, has_more := i + 1 < pages.length, last_id := lastRecId p }
  | none => { data := [], has_more := false, last_id := none }

/-- The `CachePage` entry for 1-based page number `k` as persisted by
`_save_to_cache` during a run over `pages`. -/
def cachedPage (pages : List (List Rec)) (k now : Nat) : CachePage :=
  { page := k, data := pages.getD (k - 1) [],
    last_id := lastRecId (pages.getD (k - 1) []),
    count := (pages.getD (k - 1) []).length, timestamp := now }

/-- The checkpoint persisted after the `N`-th page of a run over `pages`. -/
def prefixCheckpoint (pages : List (List Rec)) (N now : Nat) : CacheCheckpoint :=
  { last_gpt_id := ((lastRecId (pages.getD (N - 1) []))).getD "",
    last_page := N,
    total_items := ((pages.take N).flatten).length,
    timestamp := now }

/-- The cache state after pages `1..N` were successfully cached (each with its
checkpoint overwrite) and the run was then interrupted. -/
def cachedPrefix (pages : List (List Rec)) (N now : Nat) : PStore :=
  { pages := fun k =>
      if 1 ≤ k ∧ k ≤ N then some (cachedPage pages k now) else none,
    checkpoint := some (prefixCheckpoint pages N now),
    complete := none }

/-- Fetch-loop invariant: if the effective `after` parameter resolves to page
index `i` of the mock page sequence, the loop returns the accumulator extended
with all remaining records, for any cache activity, page counter and store. -/
theorem paginateLoop_pages (api : ApiFun) (pages : List (List Rec))
    (hne : ∀ p ∈ pages, p ≠ [])
    (hid : ∀ p ∈ pages, ∀ r ∈ p, r.id ≠ "")
    (hapin : ∀ i, i < pages.length →
      api (lastRecId (pages.getD i [])) = .ok (pageResponse pages (i + 1))) :
    ∀ fuel i acc cursor afterP page₀ s now ca,
      i ≤ pages.length → pages.length - i < fuel →
      api (if truthyStr cursor then cursor else afterP) = .ok (pageResponse pages i) →
      ∃ s' pg,
        Client.paginateLoop api now ca fuel acc cursor afterP page₀ s =
          (s', .ok (acc ++ (pages.drop i).flatten, pg)) := by
  intro fuel
  induction fuel with
  | zero =>
    intro i acc cursor afterP page₀ s now ca hle hf _
    omega
  | succ fuel ih =>
    intro i acc cursor afterP page₀ s now ca hle hf hcur
    by_cases hlt : i < pages.length
    · have hpi : pages[i]? = some pages[i] := List.getElem?_eq_getElem hlt
      have hresp : pageResponse pages i =
          { data := pages[i], has_more := i + 1 < pages.length,
            last_id := lastRecId pages[i] } := by
        simp [pageResponse, hpi]
      have hmem : pages[i] ∈ pages := List.getElem_mem hlt
      have hpne : pages[i] ≠ [] := hne _ hmem
      have hlast : pages[i].getLast? = some (pages[i].getLast hpne) :=
        List.getLast?_eq_getLast_of_ne_nil hpne
      set r := pages[i].getLast hpne with hr
      have hrid : r.id ≠ "" := hid _ hmem r (List.getLast_mem hpne)
      have hlid : lastRecId pages[i] = some r.id := by
        simp [lastRecId, hlast]
      have htr : truthyStr (some r.id) = true := by simpa [truthyStr] using hrid
      have hdropi : pages.drop i = pages[i] :: pages.drop (i + 1) :=
        List.drop_eq_getElem_cons hlt
      simp only [Client.paginateLoop]
      rw [hcur, hresp]
      by_cases hmore : i + 1 < pages.length
      · -- a further page exists: the loop continues with cursor `r.id`
        have hcont : api (if truthyStr (lastRecId pages[i]) then lastRecId pages[i]
            else (if truthyStr cursor then cursor else afterP)) =
            .ok (pageResponse pages (i + 1)) := by
          rw [hlid]
          simp only [htr, if_true]
          rw [← hlid]
          have := hapin i hlt
          rwa [List.getD_eq_getElem pages [] hlt] at this
        dsimp only
        rw [if_neg (by simp [hlid, htr, hmore])]
        rw [hdropi, List.flatten_cons, ← List.append_assoc]
        exact ih (i + 1) (acc ++ pages[i]) (lastRecId pages[i])
          (if truthyStr cursor then cursor else afterP) (page₀ + 1) _ now ca
          (by omega) (by omega) hcont
      · -- final page: `has_more` is false, the loop stops here
        dsimp only
        rw [if_pos (by simp [hmore])]
        rw [hdropi, List.drop_eq_nil_of_le (by omega)]
        simp only [List.flatten_cons, List.flatten_nil, List.append_nil]
        exact ⟨_, _, rfl⟩
    · -- past the final page: the mock API answers with the empty terminal page
      have hieq : i = pages.length := by omega
      have hpi : pages[i]? = none := by
        rw [List.getElem?_eq_none_iff]
        omega
      have hresp : pageResponse pages i =
          { data := [], has_more := false, last_id := none } := by
        simp [pageResponse, hpi]
      simp only [Client.paginateLoop]
      rw [hcur, hresp]
      dsimp only
      refine ⟨s, page₀ + 1, ?_⟩
      rw [hieq, List.drop_length]
      simp [truthyStr]

/-- Loading cached pages from a store holding exactly pages `1..N`: starting
at page `k` with `N + 1 - k` pages remaining, the loader returns the
concatenation of the cached pages from `k` on. -/
theorem loadPagesFrom_cachedPrefix (pages : List (List Rec)) (N now : Nat)
    (hNle : N ≤ pages.length) :
    ∀ rem k, 1 ≤ k → k + rem = N + 1 →
      GPTCache.loadPagesFrom (cachedPrefix pages N now) rem k =
        ((pages.take N).drop (k - 1)).flatten := by
  intro rem
  induction rem with
  | zero =>
    intro k hk1 hkN
    have hlen : (pages.take N).length ≤ k - 1 := by
      simp only [List.length_take]
      omega
    rw [List.drop_eq_nil_of_le hlen]
    simp [GPTCache.loadPagesFrom]
  | succ rem ih =>
    intro k hk1 hkN
    have hkN' : k ≤ N := by omega
    have hplt : k - 1 < pages.length := by omega
    have hpage : (cachedPrefix pages N now).pages k = some (cachedPage pages k now) := by
      simp [cachedPrefix, hk1, hkN']
    rw [GPTCache.loadPagesFrom, hpage]
    rw [ih (k + 1) (by omega) (by omega)]
    have h1 : k - 1 < (pages.take N).length := by
      simp only [List.length_take]
      omega
    have hdrop : (pages.take N).drop (k - 1) =
        (pages.take N)[k - 1] :: (pages.take N).drop k := by
      have h := List.drop_eq_getElem_cons h1
      rwa [Nat.sub_add_cancel hk1] at h
    rw [hdrop, List.flatten_cons]
    simp only [Nat.add_sub_cancel]
    congr 1
    rw [List.getElem_take]
    exact (List.getD_eq_getElem pages [] hplt).trans rfl ▸
      (List.getD_eq_getElem pages [] hplt)

/-- The last record of the concatenation of the first `N` pages is the last
record of page `N` (1-based), provided that page is nonempty. -/
theorem flatten_take_getLast? (pages : List (List Rec)) (N : Nat)
    (hN1 : 1 ≤ N) (hNle : N ≤ pages.length)
    (hpne : pages.getD (N - 1) [] ≠ []) :
    ((pages.take N).flatten).getLast? = (pages.getD (N - 1) []).getLast? := by
  obtain ⟨M, rfl⟩ : ∃ M, N = M + 1 := ⟨N - 1, by omega⟩
  simp only [Nat.add_sub_cancel] at hpne ⊢
  have h2 : M < pages.length := by omega
  rw [List.take_succ, List.getElem?_eq_getElem h2]
  rw [List.flatten_append]
  simp only [Option.toList_some, List.flatten_cons, List.flatten_nil, List.append_nil]
  rw [List.getLast?_append_of_ne_nil]
  · rw [List.getD_eq_getElem pages [] h2]
  · rw [← List.getD_eq_getElem pages [] h2]
    exact hpne

/-- A loop that returned normally passes its record list through
`paginateFinish` unchanged. -/
theorem paginateFinish_ok_snd (ca : Bool) (k : Option String) (now : Nat)
    (s' : PStore) (res : List Rec) (pg : Nat) :
    (Client.paginateFinish ca k now (s', .ok (res, pg))).2 = .ok res := by
  simp only [Client.paginateFinish]
  by_cases h : ca = true ∧ res ≠ []
  · rw [if_pos h]
  · rw [if_neg h]

/-- C1: resume correctness.  For every page sequence and every `N` with pages
`1..N` successfully cached (pages plus checkpoint) before an interruption,
running `_paginate` with the persisted checkpoint cursor as `resume_from`
against an API that continues from that cursor yields exactly the record list
of the uninterrupted run from the start — same order, same membership. -/
theorem C1_resume_correctness (api : ApiFun) (pages : List (List Rec))
    (N fuelF fuelR nowC nowF nowR : Nat) (ws : String)
    (hws : ws ≠ "")
    (hne : ∀ p ∈ pages, p ≠ [])
    (hid : ∀ p ∈ pages, ∀ r ∈ p, r.id ≠ "")
    (hN1 : 1 ≤ N) (hNle : N ≤ pages.length)
    (hfuelF : pages.length < fuelF) (hfuelR : pages.length - N < fuelR)
    (hapi0 : api none = .ok (pageResponse pages 0))
    (hapin : ∀ i, i < pages.length →
      api (lastRecId (pages.getD i [])) = .ok (pageResponse pages (i + 1))) :
    (Client.paginate api fuelR nowR (some ws)
        (some (prefixCheckpoint pages N nowC).last_gpt_id)
        (cachedPrefix pages N nowC)).2 = .ok pages.flatten ∧
    (Client.paginate api fuelF nowF (some ws) none PStore.empty).2 =
      .ok pages.flatten := by
  have htrws : truthyStr (some ws) = true := by simpa [truthyStr] using hws
  constructor
  · -- resumed run
    have hNlt : N - 1 < pages.length := by omega
    have hgetD : pages.getD (N - 1) [] = pages[N - 1] :=
      List.getD_eq_getElem pages [] hNlt
    have hmemN : pages[N - 1] ∈ pages := List.getElem_mem hNlt
    have hpneN : pages[N - 1] ≠ [] := hne _ hmemN
    have hlastN : pages[N - 1].getLast? = some (pages[N - 1].getLast hpneN) :=
      List.getLast?_eq_getLast_of_ne_nil hpneN
    set r := pages[N - 1].getLast hpneN with hr
    have hridN : r.id ≠ "" := hid _ hmemN r (List.getLast_mem hpneN)
    have hlidN : lastRecId (pages.getD (N - 1) []) = some r.id := by
      rw [hgetD]
      simp [lastRecId, hlastN]
    have hcpid : (prefixCheckpoint pages N nowC).last_gpt_id = r.id := by
      simp only [prefixCheckpoint]
      rw [hlidN]
      rfl
    have htrlid : truthyStr (some (prefixCheckpoint pages N nowC).last_gpt_id) = true := by
      rw [hcpid]
      simpa [truthyStr] using hridN
    have hloadp : GPTCache.load_cached_pages (cachedPrefix pages N nowC) N =
        (pages.take N).flatten := by
      have h := loadPagesFrom_cachedPrefix pages N nowC hNle N 1 (by omega) (by omega)
      simpa [GPTCache.load_cached_pages] using h
    have hglast : ((pages.take N).flatten).getLast? = some r := by
      rw [flatten_take_getLast? pages N hN1 hNle (by rw [hgetD]; exact hpneN)]
      rw [hgetD]
      exact hlastN
    have hseed : Client.paginateSeed (truthyStr (some ws))
        (some (prefixCheckpoint pages N nowC).last_gpt_id)
        (cachedPrefix pages N nowC) = ((pages.take N).flatten, N, some r.id) := by
      simp only [Client.paginateSeed, htrws, htrlid, and_self, if_true, Option.getD_some]
      have hcp : GPTCache.load_checkpoint (cachedPrefix pages N nowC) =
          some (prefixCheckpoint pages N nowC) := rfl
      simp only [Client.load_cached_data, hcp]
      have hlp : (prefixCheckpoint pages N nowC).last_page = N := rfl
      rw [hlp, hloadp, hglast]
    have hcontN : api (if truthyStr (some r.id) then some r.id else none) =
        .ok (pageResponse pages N) := by
      have htr : truthyStr (some r.id) = true := by simpa [truthyStr] using hridN
      rw [if_pos (by simp [htr])]
      have h := hapin (N - 1) hNlt
      rw [hlidN, Nat.sub_add_cancel hN1] at h
      exact h
    obtain ⟨s', pg, hloop⟩ := paginateLoop_pages api pages hne hid hapin fuelR N
      ((pages.take N).flatten) (some r.id) none N (cachedPrefix pages N nowC)
      nowR (truthyStr (some ws)) hNle hfuelR hcontN
    unfold Client.paginate
    rw [hseed]
    dsimp only
    rw [hloop]
    rw [paginateFinish_ok_snd]
    rw [← List.flatten_append, List.take_append_drop]
  · -- uninterrupted run from the start
    have hseedF : Client.paginateSeed (truthyStr (some ws)) none PStore.empty =
        ([], 0, none) := by
      simp [Client.paginateSeed, truthyStr]
    obtain ⟨s', pg, hloop⟩ := paginateLoop_pages api pages hne hid hapin fuelF 0
      [] none none 0 PStore.empty nowF (truthyStr (some ws))
      (by omega) (by omega) (by simpa [truthyStr] using hapi0)
    unfold Client.paginate
    rw [hseedF]
    dsimp only
    rw [hloop]
    rw [paginateFinish_ok_snd]
    simp

/-- Witness for `C1_resume_correctness`: the acme scenario interrupted after
page 1, resumed with the persisted checkpoint cursor `"g2"`, produces the same
record list `[g1, g2, g3]` as the uninterrupted run. -/
theorem C1_resume_correctness_witness :
    (("acme" : String) ≠ "" ∧ (1 : Nat) ≤ 1 ∧
     (1 : Nat) ≤ ([[recG1, recG2], [recG3]] : List (List Rec)).length ∧
     apiAcme none = .ok (pageResponse [[recG1, recG2], [recG3]] 0)) ∧
    (Client.paginate apiAcme 3 0 (some "acme")
        (some (prefixCheckpoint [[recG1, recG2], [recG3]] 1 0).last_gpt_id)
        (cachedPrefix [[recG1, recG2], [recG3]] 1 0)).2 =
      .ok ([[recG1, recG2], [recG3]] : List (List Rec)).flatten ∧
    (Client.paginate apiAcme 3 0 (some "acme") none PStore.empty).2 =
      .ok ([[recG1, recG2], [recG3]] : List (List Rec)).flatten := by
  refine ⟨⟨by decide, le_refl 1, by decide, rfl⟩, ?_⟩
  exact C1_resume_correctness apiAcme [[recG1, recG2], [recG3]] 1 3 3 0 0 0 "acme"
    (by decide) (by decide) (by decide) (le_refl 1) (by decide) (by decide) (by decide)
    rfl
    (by
      intro i hi
      have hi2 : i < 2 := by simpa using hi
      interval_cases i <;> rfl)

/-! ## Claim C5: HTTP status → typed error mapping (`_make_request`) -/

/-- The parts of an HTTP response read by `_make_request`: the status code,
the raw body text, and the `Retry-After` header (absent when not sent). -/
structure HTTPResponse where
  status_code : Nat
  text : String
  retry_after_header : Option String
deriving DecidableEq, Repr

/-- Typed outcome of `_make_request` on a received HTTP response.  Constructors
mirror the exception classes of `src/gci/exceptions.py`.  Both the 5xx branch
and the catch-all branch of `_make_request` raise the base `APIError`
(distinguished by status code and message text); `valueError` models the
`ValueError` that `int()` raises on a non-integer `Retry-After` value.  The
200 case abstracts `response.json()` as the raw body. -/
inductive RequestOutcome
  | ok (body : String)
  | authenticationError (message : String) (response_text : String)
  | permissionError (message : String) (response_text : String)
  | notFoundError (message : String) (response_text : String)
  | timeoutError (operation : String) (timeout_seconds : Nat)
  | rateLimitError (message : String) (response_text : String) (retry_after : Option Int)
  | apiError (status_code : Nat) (message : String) (response_text : String)
  | valueError (s : String)
deriving DecidableEq, Repr

/-- Digit accumulator for `pyInt?`. -/
def digitsToNatAux : List Char → Nat → Option Nat
  | [], acc => some acc
  | c :: cs, acc =>
      if c.isDigit then digitsToNatAux cs (acc * 10 + (c.toNat - 48)) else none

/-- Decimal digits to a number; `none` on an empty or non-digit sequence. -/
def digitsToNat? : List Char → Option Nat
  | [] => none
  | ds => digitsToNatAux ds 0

/-- Python `str.strip()` / the whitespace tolerance of `int()`: drop leading
and trailing whitespace. -/
def pyStrip (s : String) : String :=
  String.mk (((s.toList.dropWhile Char.isWhitespace).reverse.dropWhile
    Char.isWhitespace).reverse)

/-- Python `int(s)` on a string: surrounding whitespace and an optional sign
are accepted; `none` models the raised `ValueError`. -/
def pyInt? (s : String) : Option Int :=
  match (pyStrip s).toList with
  | '-' :: ds => (digitsToNat? ds).map (fun n => -(n : Int))
  | '+' :: ds => (digitsToNat? ds).map (fun n => (n : Int))
  | ds => (digitsToNat? ds).map (fun n => (n : Int))

/-- `APIConstants.REQUEST_TIMEOUT`. -/
def REQUEST_TIMEOUT : Nat := 30

/-- Status-code dispatch of `_make_request` (client.py lines 141–169): 200
returns the body; 401/403/404/408/429 map through `error_map`; then 5xx, then
the catch-all — both raising `APIError` with status and body.  The 429 entry
parses `Retry-After` with `int(...)` only when the header is truthy. -/
def handleResponse (method_name : String) (resp : HTTPResponse) : RequestOutcome :=
  if resp.status_code = 200 then .ok resp.text
  else if resp.status_code = 401 then
    .authenticationError ("Unauthorized access in " ++ method_name) resp.text
  else if resp.status_code = 403 then
    .permissionError ("Access forbidden in " ++ method_name) resp.text
  else if resp.status_code = 404 then
    .notFoundError ("Resource not found in " ++ method_name) resp.text
  else if resp.status_code = 408 then
    .timeoutError method_name REQUEST_TIMEOUT
  else if resp.status_code = 429 then
    match resp.retry_after_header with
    | some h =>
        if h ≠ "" then
          match pyInt? h with
          | some n =>
              .rateLimitError ("Rate limit exceeded in " ++ method_name) resp.text (some n)
          | none => .valueError h
        else .rateLimitError ("Rate limit exceeded in " ++ method_name) resp.text none
    | none => .rateLimitError ("Rate limit exceeded in " ++ method_name) resp.text none
  else if 500 ≤ resp.status_code ∧ resp.status_code < 600 then
    .apiError resp.status_code ("Server error in " ++ method_name) resp.text
  else
    .apiError resp.status_code
      ("Unexpected response status " ++ toString resp.status_code ++ " in " ++ method_name)
      resp.text

/-- C5: for every non-200 HTTP response, the request layer raises the typed
error the status maps to: 401 `AuthenticationError`, 403 `PermissionError`,
404 `NotFoundError`, 408 `TimeoutError`, 429 `RateLimitError` carrying the
retry-after seconds parsed from the `Retry-After` header when present (absent
otherwise), any 5xx the `APIError` raise site the spec calls `ServerError`
(status + body), and any other non-200 status the `APIError` raise site the
spec calls `UnexpectedStatusError` (status + body). -/
theorem C5_status_error_mapping (method_name : String) (resp : HTTPResponse)
    (hn200 : resp.status_code ≠ 200) :
    (resp.status_code = 401 → handleResponse method_name resp =
      .authenticationError ("Unauthorized access in " ++ method_name) resp.text) ∧
    (resp.status_code = 403 → handleResponse method_name resp =
      .permissionError ("Access forbidden in " ++ method_name) resp.text) ∧
    (resp.status_code = 404 → handleResponse method_name resp =
      .notFoundError ("Resource not found in " ++ method_name) resp.text) ∧
    (resp.status_code = 408 → handleResponse method_name resp =
      .timeoutError method_name REQUEST_TIMEOUT) ∧
    (resp.status_code = 429 → ∀ h n, resp.retry_after_header = some h →
      h ≠ "" → pyInt? h = some n →
      handleResponse method_name resp =
        .rateLimitError ("Rate limit exceeded in " ++ method_name) resp.text (some n)) ∧
    (resp.status_code = 429 → resp.retry_after_header = none →
      handleResponse method_name resp =
        .rateLimitError ("Rate limit exceeded in " ++ method_name) resp.text none) ∧
    (500 ≤ resp.status_code → resp.status_code < 600 →
      handleResponse method_name resp =
        .apiError resp.status_code ("Server error in " ++ method_name) resp.text) ∧
    (resp.status_code ∉ ([401, 403, 404, 408, 429] : List Nat) →
      ¬(500 ≤ resp.status_code ∧ resp.status_code < 600) →
      handleResponse method_name resp =
        .apiError resp.status_code
          ("Unexpected response status " ++ toString resp.status_code ++ " in " ++ method_name)
          resp.text) := by
  refine ⟨?_, ?_, ?_, ?_, ?_, ?_, ?_, ?_⟩
  · intro h
    simp [handleResponse, h]
  · intro h
    simp [handleResponse, h]
  · intro h
    simp [handleResponse, h]
  · intro h
    simp [handleResponse, h]
  · intro h hd n hh hne hint
    simp [handleResponse, h, hh, hne, hint]
  · intro h hh
    simp [handleResponse, h, hh]
  · intro h5 h6
    have h1 : resp.status_code ≠ 200 := by omega
    have h2 : resp.status_code ≠ 401 := by omega
    have h3 : resp.status_code ≠ 403 := by omega
    have h4 : resp.status_code ≠ 404 := by omega
    have h8 : resp.status_code ≠ 408 := by omega
    have h9 : resp.status_code ≠ 429 := by omega
    simp [handleResponse, h1, h2, h3, h4, h8, h9, h5, h6]
  · intro hmem h5xx
    simp only [List.mem_cons, List.not_mem_nil, or_false] at hmem
    push_neg at hmem
    obtain ⟨h2, h3, h4, h8, h9⟩ := hmem
    simp [handleResponse, hn200, h2, h3, h4, h8, h9, h5xx]

/-- Witness for `C5_status_error_mapping`: a concrete 429 response with
`Retry-After: 7` maps to `RateLimitError` carrying 7 seconds. -/
theorem C5_status_error_mapping_witness :
    (({ status_code := 429, text := "slow down",
        retry_after_header := some "7" } : HTTPResponse).status_code ≠ 200) ∧
    handleResponse "GET /gpts"
      { status_code := 429, text := "slow down", retry_after_header := some "7" } =
      .rateLimitError ("Rate limit exceeded in " ++ "GET /gpts") "slow down" (some 7) :=
  ⟨by decide,
   (C5_status_error_mapping "GET /gpts"
      { status_code := 429, text := "slow down", retry_after_header := some "7" }
      (by decide)).2.2.2.2.1 rfl "7" 7 rfl (by decide) (by decide)⟩

/-! ## Claim C6: cache failure semantics (fault-injecting model of `GPTCache`)

The functional model `GPTCache` above describes a healthy store.  To settle
the failure-semantics claim the same source functions are modelled again over
a store with an explicit exception channel: the diskcache primitives can raise
(storage fault) and a stored blob can be corrupt (pydantic validation raises).
An `Except` result type shows what the *caller* of each cache operation can
observe; operations whose source body wraps the work in `try/except` catch
internally and always return `.ok`. -/

/-- The cache keys used by `GPTCache`: `page_<n>`, `"checkpoint"`,
`"complete"`. -/
inductive CKey
  | pageKey (n : Nat)
  | checkpointKey
  | completeKey
deriving DecidableEq, Repr

/-- A stored blob: a well-formed serialized model, or corrupt data on which
`model_validate` raises. -/
inductive StoredVal
  | pageVal (p : CachePage)
  | checkpointVal (c : CacheCheckpoint)
  | completeVal (c : CompleteCache)
  | corruptVal
deriving DecidableEq, Repr

/-- A diskcache store with storage-level fault injection: `getFails k`,
`setFails k` and `deleteFails` model a raised storage exception (corrupt
sqlite file, full disk, I/O error) on the corresponding primitive. -/
structure FaultyStore where
  contents : CKey → Option StoredVal
  getFails : CKey → Bool
  setFails : CKey → Bool
  deleteFails : Bool

/-- `diskcache.Cache.get`. -/
def dcGet (s : FaultyStore) (k : CKey) : Except Unit (Option StoredVal) :=
  if s.getFails k then .error () else .ok (s.contents k)

/-- `diskcache.Cache.set`. -/
def dcSet (s : FaultyStore) (k : CKey) (v : StoredVal) : Except Unit FaultyStore :=
  if s.setFails k then .error ()
  else .ok { s with contents := fun x => if x = k then some v else s.contents x }

/-- `diskcache.Cache.delete`. -/
def dcDelete (s : FaultyStore) (k : CKey) : Except Unit FaultyStore :=
  if s.deleteFails then .error ()
  else .ok { s with contents := fun x => if x = k then none else s.contents x }

namespace GPTCacheE

/-- `GPTCache.save_page` on the faulty store: the source has no `try/except`
here, so a raised storage error propagates to the caller. -/
def save_page (s : FaultyStore) (page_num : Nat) (data : List Rec)
    (last_id : Option String) (now : Nat) : Except Unit FaultyStore :=
  dcSet s (.pageKey page_num)
    (.pageVal { page := page_num, data := data, last_id := last_id,
                count := data.length, timestamp := now })

/-- `GPTCache.save_checkpoint`: no `try/except`; a raised storage error
propagates. -/
def save_checkpoint (s : FaultyStore) (last_gpt_id : String) (page_num : Nat)
    (total_items : Nat) (now : Nat) : Except Unit FaultyStore :=
  dcSet s .checkpointKey
    (.checkpointVal { last_gpt_id := last_gpt_id, last_page := page_num,
                      total_items := total_items, timestamp := now })

/-- `GPTCache.save_complete_results`: no `try/except`; a raised storage error
propagates. -/
def save_complete_results (s : FaultyStore) (workspace_id : String)
    (results : List Rec) (total_pages : Nat) (now : Nat) : Except Unit FaultyStore :=
  dcSet s .completeKey
    (.completeVal { workspace_id := workspace_id, total_items := results.length,
                    total_pages := total_pages, cached_at := now, data := results })

/-- `GPTCache.load_checkpoint`: `get` + truthiness check + `model_validate`
inside a `try/except Exception` that logs and returns `None`. -/
def load_checkpoint (s : FaultyStore) : Except Unit (Option CacheCheckpoint) :=
  .ok (match (do
        let b ← dcGet s .checkpointKey
        match b with
        | none => pure none
        | some (.checkpointVal c) => pure (some c)
        | some _ => throw ()
      : Except Unit (Option CacheCheckpoint)) with
    | .ok v => v
    | .error _ => none)

/-- `GPTCache.load_complete_results`: same catch-all structure as
`load_checkpoint`. -/
def load_complete_results (s : FaultyStore) : Except Unit (Option CompleteCache) :=
  .ok (match (do
        let b ← dcGet s .completeKey
        match b with
        | none => pure none
        | some (.completeVal c) => pure (some c)
        | some _ => throw ()
      : Except Unit (Option CompleteCache)) with
    | .ok v => v
    | .error _ => none)

/-- Loop body of `GPTCache.load_cached_pages`: the `try/except` inside the
loop turns any raise from `get`/`model_validate` into a break, keeping the
records accumulated so far. -/
def loadPagesFromE (s : FaultyStore) : Nat → Nat → List Rec
  | 0, _ => []
  | remaining + 1, k =>
      match dcGet s (.pageKey k) with
      | .error _ => []
      | .ok none => []
      | .ok (some (.pageVal p)) => p.data ++ loadPagesFromE s remaining (k + 1)
      | .ok (some _) => []

/-- `GPTCache.load_cached_pages`: the caller always receives a list. -/
def load_cached_pages (s : FaultyStore) (up_to : Nat) : Except Unit (List Rec) :=
  .ok (loadPagesFromE s up_to 1)

/-- `GPTCache.remove_checkpoint`: `delete` inside `try/except`; a raised
storage error is swallowed and the store left as is. -/
def remove_checkpoint (s : FaultyStore) : Except Unit FaultyStore :=
  .ok (match dcDelete s .checkpointKey with
    | .ok s' => s'
    | .error _ => s)

end GPTCacheE

/-- A store whose backing `set` raises on every key (e.g. the disk is full)
while reads work. -/
def setFailStore : FaultyStore :=
  { contents := fun _ => none, getFails := fun _ => false,
    setFails := fun _ => true, deleteFails := false }

/-- Counterexample to C6 as stated: `save_page` is a Page Cache write
operation, yet on a store whose backing `set` raises, the exception
propagates to the caller — the source wraps no `try/except` around
`self.cache.set(...)` in `save_page`/`save_checkpoint`/
`save_complete_results`. -/
theorem C6_counterexample :
    GPTCacheE.save_page setFailStore 1 [recG1] (some "g1") 0 = .error () ∧
    GPTCacheE.save_checkpoint setFailStore "g1" 1 1 0 = .error () ∧
    GPTCacheE.save_complete_results setFailStore "acme" [recG1] 1 0 = .error () :=
  ⟨rfl, rfl, rfl⟩

/-- C6 amended claim: every Page Cache *read* operation (`load_checkpoint`,
`load_cached_pages`, `load_complete_results`) and `remove_checkpoint` catches
any individual cache failure internally and the caller observes only an
absent/partial result; a storage-fault or corrupt entry degrades to "entry
absent".  The *write* operations (`save_page`, `save_checkpoint`,
`save_complete_results`) catch nothing: a raised storage error propagates to
the caller. -/
theorem C6_read_swallows_write_propagates (s : FaultyStore)
    (n up_to total now : Nat) (data : List Rec) (last : Option String)
    (lid ws : String) (res : List Rec) :
    (∃ v, GPTCacheE.load_checkpoint s = .ok v) ∧
    (∃ l, GPTCacheE.load_cached_pages s up_to = .ok l) ∧
    (∃ v, GPTCacheE.load_complete_results s = .ok v) ∧
    (∃ s', GPTCacheE.remove_checkpoint s = .ok s') ∧
    (s.getFails .checkpointKey = true →
      GPTCacheE.load_checkpoint s = .ok none) ∧
    (s.getFails .checkpointKey = false →
      s.contents .checkpointKey = some .corruptVal →
      GPTCacheE.load_checkpoint s = .ok none) ∧
    (s.setFails (.pageKey n) = true →
      GPTCacheE.save_page s n data last now = .error ()) ∧
    (s.setFails .checkpointKey = true →
      GPTCacheE.save_checkpoint s lid n total now = .error ()) ∧
    (s.setFails .completeKey = true →
      GPTCacheE.save_complete_results s ws res n now = .error ()) := by
  refine ⟨⟨_, rfl⟩, ⟨_, rfl⟩, ⟨_, rfl⟩, ⟨_, rfl⟩, ?_, ?_, ?_, ?_, ?_⟩
  · intro h
    simp only [GPTCacheE.load_checkpoint, dcGet, h]
    rfl
  · intro h hc
    simp only [GPTCacheE.load_checkpoint, dcGet, h, hc]
    rfl
  · intro h
    simp [GPTCacheE.save_page, dcSet, h]
  · intro h
    simp [GPTCacheE.save_checkpoint, dcSet, h]
  · intro h
    simp [GPTCacheE.save_complete_results, dcSet, h]

/-- A store with a corrupt checkpoint entry and a failing `set` on `page_1`. -/
def mixedFaultStore : FaultyStore :=
  { contents := fun k => if k = CKey.checkpointKey then some .corruptVal else none,
    getFails := fun _ => false,
    setFails := fun k => decide (k = CKey.pageKey 1),
    deleteFails := false }

/-- Witness for `C6_read_swallows_write_propagates`: on `mixedFaultStore` the
corrupt checkpoint degrades to an absent result while `save_page` propagates
the storage error. -/
theorem C6_read_swallows_write_propagates_witness :
    (mixedFaultStore.getFails .checkpointKey = false ∧
     mixedFaultStore.contents .checkpointKey = some .corruptVal ∧
     mixedFaultStore.setFails (.pageKey 1) = true) ∧
    GPTCacheE.load_checkpoint mixedFaultStore = .ok none ∧
    GPTCacheE.save_page mixedFaultStore 1 [recG1] (some "g1") 0 = .error () :=
  ⟨⟨rfl, rfl, by decide⟩,
   (C6_read_swallows_write_propagates mixedFaultStore 1 1 1 0 [recG1] (some "g1")
      "g1" "acme" [recG1]).2.2.2.2.2.1 rfl rfl,
   (C6_read_swallows_write_propagates mixedFaultStore 1 1 1 0 [recG1] (some "g1")
      "g1" "acme" [recG1]).2.2.2.2.2.2.1 (by decide)⟩

/-! ## The search/filter engine (`src/gci/core/search.py`)

Records flowing through `GPTSearcher` are raw Python dicts that the engine
*mutates in place* (`gpt["_search_score"] = score`, `gpt.pop(...)`).  The
embedding makes the object store explicit: the caller's record list is a
`Heap` (one dict per position, position = object identity), and every
operation returns both its result — as positions into the heap — and the
updated heap.  External libraries are opaque function parameters:
`flatten` models the pydantic/json serialization of a record into its
lowercased index text, `scorer` models `fuzz.partial_ratio` (score 0–100),
`align` models `fuzz.partial_ratio_alignment` (the `dest_start`/`dest_end`
character range in the searched text), and `dparse` models
`dateparser.parse` (as an epoch value, `none` when unparseable). -/

/-- A Python value stored in a record dict. -/
inductive PyVal
  | vstr (s : String)
  | vint (n : Int)
  | vnone
deriving DecidableEq, Repr

/-- A Python dict with string keys: an association list with unique keys,
insertion-ordered (updates keep the key's position, as in Python). -/
abbrev Dict := List (String × PyVal)

/-- `d.get(k)` — first (= only) binding of the key. -/
def dictGet? (d : Dict) (k : String) : Option PyVal :=
  match d with
  | [] => none
  | (k', v) :: rest => if k' = k then some v else dictGet? rest k

/-- `d.get(k, default)`. -/
def dictGetD (d : Dict) (k : String) (dflt : PyVal) : PyVal :=
  (dictGet? d k).getD dflt

/-- `d[k] = v`: update in place (key keeps its position) or append. -/
def dictSet (d : Dict) (k : String) (v : PyVal) : Dict :=
  match d with
  | [] => [(k, v)]
  | (k', v') :: rest => if k' = k then (k', v) :: rest else (k', v') :: dictSet rest k v

/-- Removal part of `d.pop(k, default)`. -/
def dictPop (d : Dict) (k : String) : Dict :=
  match d with
  | [] => []
  | (k', v') :: rest => if k' = k then rest else (k', v') :: dictPop rest k

/-- `k in d`. -/
def hasKey (d : Dict) (k : String) : Bool := (dictGet? d k).isSome

/-- The `"id"` field of a record when it is a string. -/
def idOf? (d : Dict) : Option String :=
  match dictGet? d "id" with
  | some (.vstr s) => some s
  | _ => none

/-- `gpt["id"]` under the hypothesis (carried by the theorems) that every
record has a string id — the source raises `KeyError` otherwise. -/
def idOfD (d : Dict) : String := (idOf? d).getD ""

/-- Generic insertion-ordered association update (Python dict assignment). -/
def updateAssoc {α : Type} : List (String × α) → String → α → List (String × α)
  | [], k, v => [(k, v)]
  | (k', v') :: rest, k, v =>
      if k' = k then (k', v) :: rest else (k', v') :: updateAssoc rest k v

/-- Generic association lookup (`k in m` / `m[k]`). -/
def lookupAssoc {α : Type} : List (String × α) → String → Option α
  | [], _ => none
  | (k', v') :: rest, k => if k' = k then some v' else lookupAssoc rest k

/-- The search index: record id → lowercased flattened text (a Python dict,
insertion-ordered, unique keys). -/
abbrev SIndex := List (String × String)

/-- `query.lower()`. -/
def pyLower (s : String) : String := String.mk (s.toList.map Char.toLower)

/-- Python string slice `s[a:b]` for `0 ≤ a, b` (clamped at the ends),
counting characters. -/
def pySlice (s : String) (a b : Nat) : String :=
  String.mk ((s.toList.drop a).take (b - a))

/-- `len(s)` in characters. -/
def strLen (s : String) : Nat := s.toList.length

/-! ### Date filtering (`_filter_by_date`) -/

/-- `dateparser.parse(x) if x else None` on an optional bound string. -/
def parseBound (dparse : String → Option Int) : Option String → Option Int
  | some s => if s ≠ "" then dparse s else none
  | none => none

/-- The parsed creation date of a record: `gpt.get("created_at", 0)`, numeric
epoch (`datetime.fromtimestamp`) or string (`dateparser.parse`); `none` for
any other shape or an unparseable string. -/
def recDate (dparse : String → Option Int) (g : Dict) : Option Int :=
  match dictGetD g "created_at" (.vint 0) with
  | .vint n => some n
  | .vstr s => dparse s
  | .vnone => none

/-- The body of the `_filter_by_date` loop: keep a record iff its creation
date parsed and neither bound excludes it (`continue` on `gpt_dt < after_dt`
or `gpt_dt > before_dt`). -/
def keepDate (dparse : String → Option Int) (ad bd : Option Int) (g : Dict) : Bool :=
  match recDate dparse g with
  | none => false
  | some dt =>
      if ad.any (fun a => decide (dt < a)) then false
      else if bd.any (fun b => decide (b < dt)) then false
      else true

/-- `GPTSearcher._filter_by_date` over a plain record list. -/
def filter_by_date (dparse : String → Option Int) (gpts : List Dict)
    (after_str before_str : Option String) : List Dict :=
  let ad := parseBound dparse after_str
  let bd := parseBound dparse before_str
  if ad = none ∧ bd = none then gpts
  else gpts.filter (keepDate dparse ad bd)

/-- `GPTSearcher._filter_by_date` in the heap embedding: the same selection
applied to record positions (the filter builds a sublist of the same record
objects, so only positions are filtered — the heap is untouched). -/
def filterByDatePos (dparse : String → Option Int) (h : List Dict)
    (pos : List Nat) (a b : Option String) : List Nat :=
  let ad := parseBound dparse a
  let bd := parseBound dparse b
  if ad = none ∧ bd = none then pos
  else pos.filter (fun j => keepDate dparse ad bd (h.getD j []))

/-! ### Fuzzy search (`_fuzzy_search`, `_get_or_build_search_index`) -/

/-- The record heap: the caller's list of record dicts, addressed by position
(position = Python object identity). -/
abbrev Heap := List Dict

/-- Read the record object at a position. -/
def heapGet (h : Heap) (j : Nat) : Dict := h.getD j []

/-- `_get_or_build_search_index`'s index construction: one entry per record
with a nonempty string id, mapping the id to the record's lowercased
flattened serialization (`flatten`); a later duplicate id overwrites the
text but keeps the first insertion position (Python dict semantics).
Records whose id is absent or empty are skipped (the source's fallback path
skips them; the pydantic path cannot produce them). -/
def buildIndex (flatten : Dict → String) (h : Heap) (pos : List Nat) : SIndex :=
  pos.foldl (fun ix j =>
    let g := heapGet h j
    match idOf? g with
    | some gid => if gid ≠ "" then updateAssoc ix gid (flatten g) else ix
    | none => ix) []

/-- `_get_or_build_search_index`: serve the cached index when present,
otherwise build from the records and cache it. -/
def getOrBuildIndex (flatten : Dict → String) (c : Option SIndex) (h : Heap)
    (pos : List Nat) : SIndex × Option SIndex :=
  match c with
  | some ix => (ix, some ix)
  | none =>
      let ix := buildIndex flatten h pos
      (ix, some ix)

/-- `{gpt["id"]: gpt for gpt in gpts_data}`: record id → position of the
*last* record with that id (Python: the value is overwritten, the object the
matches mutate is the last one). -/
def buildIdMap (h : Heap) (pos : List Nat) : List (String × Nat) :=
  pos.foldl (fun m j => updateAssoc m (idOfD (heapGet h j)) j) []

/-- Stable insertion into a score-descending list: the new entry goes before
the first strictly lower score, after equal scores. -/
def insertByScore (x : String × Nat × String) :
    List (String × Nat × String) → List (String × Nat × String)
  | [] => [x]
  | y :: ys => if y.2.1 < x.2.1 then x :: y :: ys else y :: insertByScore x ys

/-- Stable sort by score descending (insertion sort — extensionally the
stable descending order `process.extract` returns). -/
def sortByScoreDesc : List (String × Nat × String) → List (String × Nat × String)
  | [] => []
  | x :: xs => insertByScore x (sortByScoreDesc xs)

/-- `process.extract(query_lower, index, scorer=fuzz.partial_ratio,
score_cutoff=threshold, limit=None)`: score every index entry, keep the
entries scoring at least the cutoff, sorted by score descending (stable).
Triples are `(search_text, score, gpt_id)` as destructured at the call
site. -/
def extract (scorer : String → String → Nat) (q : String) (ix : SIndex)
    (cutoff : Nat) : List (String × Nat × String) :=
  sortByScoreDesc ((ix.map (fun e => (e.2, scorer q e.2, e.1))).filter
    (fun t => cutoff ≤ t.2.1))

/-- The per-match record mutation of `_fuzzy_search` (lines 125–167): store
the score, then from the alignment of the query against the index text store
the matched substring and a ±30-character context snippet with ellipsis
markers, re-deriving the highlighted substring relative to the snippet; on a
failed alignment fall back to the query itself and a 60-character prefix. -/
def annotate (align : String → String → Option (Nat × Nat))
    (q text : String) (score : Nat) (d : Dict) : Dict :=
  let d := dictSet d "_search_score" (.vint score)
  match align q text with
  | some (ds, de) =>
      let d := dictSet d "_matched_substring" (.vstr (pySlice text ds de))
      let start := ds - 30
      let stop := min (strLen text) (de + 30)
      let snippet := pySlice text start stop
      let msi := ds - start
      let mei := de - start
      let matchedInSnippet := pySlice snippet msi mei
      let pair :=
        if 0 < start then
          ("..." ++ snippet, pySlice ("..." ++ snippet) (msi + 3) (mei + 3))
        else (snippet, matchedInSnippet)
      let snippet2 := if stop < strLen text then pair.1 ++ "..." else pair.1
      let d := dictSet d "_match_snippet" (.vstr snippet2)
      dictSet d "_matched_substring" (.vstr pair.2)
  | none =>
      let d := dictSet d "_matched_substring" (.vstr q)
      dictSet d "_match_snippet" (.vstr (pySlice text 0 60 ++ "..."))

/-- The result loop of `_fuzzy_search` (lines 121–169): walk the extracted
matches in order; for each match whose id is a key of `id_to_gpt`, mutate
that record in place and append it to the results. -/
def processMatches (align : String → String → Option (Nat × Nat)) (q : String)
    (idMap : List (String × Nat)) :
    List (String × Nat × String) → List Nat → Heap → List Nat × Heap
  | [], acc, h => (acc, h)
  | (text, score, gid) :: ms, acc, h =>
      match lookupAssoc idMap gid with
      | some j =>
          processMatches align q idMap ms (acc ++ [j])
            (h.set j (annotate align q text score (heapGet h j)))
      | none => processMatches align q idMap ms acc h

/-- `GPTSearcher._fuzzy_search` on the records at `pos`: build or load the
index, extract all matches above the threshold, and mutate + collect the
matching records.  Returns result positions, the updated heap and the updated
search cache. -/
def fuzzy_search (flatten : Dict → String) (scorer : String → String → Nat)
    (align : String → String → Option (Nat × Nat)) (h : Heap)
    (pos : List Nat) (query : String) (threshold : Nat) (c : Option SIndex) :
    List Nat × Heap × Option SIndex :=
  let ixc := getOrBuildIndex flatten c h pos
  let idMap := buildIdMap h pos
  let qLower := pyLower query
  let ms := extract scorer qLower ixc.1 threshold
  let rh := processMatches align qLower idMap ms [] h
  (rh.1, rh.2, ixc.2)

/-- `GPTSearcher.filter_and_search`: date filtering when a bound is supplied,
then fuzzy search when a query is supplied. -/
def filter_and_search (flatten : Dict → String) (scorer : String → String → Nat)
    (align : String → String → Option (Nat × Nat)) (dparse : String → Option Int)
    (h : Heap) (query created_after created_before : Option String)
    (threshold : Nat) (c : Option SIndex) : List Nat × Heap × Option SIndex :=
  let pos0 := List.range h.length
  let pos :=
    if truthyStr created_after || truthyStr created_before then
      filterByDatePos dparse h pos0 created_after created_before
    else pos0
  if truthyStr query then
    fuzzy_search flatten scorer align h pos (query.getD "") threshold c
  else (pos, h, c)

/-- The record dicts returned by `filter_and_search` (the caller-visible
result list, resolved against the mutated heap). -/
def searchResults (flatten : Dict → String) (scorer : String → String → Nat)
    (align : String → String → Option (Nat × Nat)) (dparse : String → Option Int)
    (h : Heap) (query created_after created_before : Option String)
    (threshold : Nat) (c : Option SIndex) : List Dict :=
  let out := filter_and_search flatten scorer align dparse h query created_after
    created_before threshold c
  out.1.map (heapGet out.2.1)

/-- Removal step of `gpt.pop("_search_score", 0)`: the popped value and the
dict without the key. -/
def popScoreVal (d : Dict) : PyVal × Dict :=
  match dictGet? d "_search_score" with
  | some v => (v, dictPop d "_search_score")
  | none => (.vint 0, d)

/-- `GPTSearcher.search_with_highlights`: run `filter_and_search` with the
query, then for each match pop the score from the record (in place) and
attach `[query.strip()]` as the highlight patterns.  Returns the triples
(match position, popped score, patterns), the final heap and the search
cache. -/
def search_with_highlights (flatten : Dict → String)
    (scorer : String → String → Nat)
    (align : String → String → Option (Nat × Nat))
    (dparse : String → Option Int) (h : Heap) (query : String)
    (threshold : Nat) (c : Option SIndex) :
    List (Nat × PyVal × List String) × Heap × Option SIndex :=
  let st := filter_and_search flatten scorer align dparse h (some query)
    none none threshold c
  let qs := pyStrip query
  let patterns := if qs ≠ "" then [qs] else []
  let out := st.1.foldl (fun (acc : List (Nat × PyVal × List String) × Heap) j =>
      let vd := popScoreVal (heapGet acc.2 j)
      (acc.1 ++ [(j, vd.1, patterns)], acc.2.set j vd.2)) ([], st.2.1)
  (out.1, out.2, st.2.2)

/-- `keepDate` keeps a record iff its creation date parsed and every supplied
(parsed) bound admits it, inclusively. -/
theorem keepDate_eq_true_iff (dparse : String → Option Int) (ad bd : Option Int)
    (g : Dict) :
    keepDate dparse ad bd g = true ↔
      ∃ dt, recDate dparse g = some dt ∧
        (∀ x, ad = some x → x ≤ dt) ∧ (∀ y, bd = some y → dt ≤ y) := by
  unfold keepDate
  cases hdt : recDate dparse g with
  | none => simp
  | some dt =>
      cases ad <;> cases bd <;> simp [Option.any] <;> omega

/-- C8: when a date bound is supplied (and parses), a record is kept by
`_filter_by_date` iff its own parsed creation date (numeric epoch or
parseable string) lies within `[created_after, created_before]`, inclusive of
each bound actually supplied — a record whose date equals `created_after` is
included, one strictly before is excluded — and every record whose creation
date cannot be parsed is dropped. -/
theorem C8_date_bounds_inclusive (dparse : String → Option Int)
    (gpts : List Dict) (a b : Option String)
    (hsup : truthyStr a = true ∨ truthyStr b = true)
    (hpa : truthyStr a = true → (parseBound dparse a).isSome)
    (hpb : truthyStr b = true → (parseBound dparse b).isSome) :
    filter_by_date dparse gpts a b =
      gpts.filter (keepDate dparse (parseBound dparse a) (parseBound dparse b)) ∧
    ∀ g ∈ gpts,
      (g ∈ filter_by_date dparse gpts a b ↔
        ∃ dt, recDate dparse g = some dt ∧
          (∀ x, parseBound dparse a = some x → x ≤ dt) ∧
          (∀ y, parseBound dparse b = some y → dt ≤ y)) := by
  have hbranch : ¬(parseBound dparse a = none ∧ parseBound dparse b = none) := by
    rcases hsup with h | h
    · intro hc
      have := hpa h
      rw [hc.1] at this
      simp at this
    · intro hc
      have := hpb h
      rw [hc.2] at this
      simp at this
  have heq : filter_by_date dparse gpts a b =
      gpts.filter (keepDate dparse (parseBound dparse a) (parseBound dparse b)) := by
    unfold filter_by_date
    rw [if_neg hbranch]
  refine ⟨heq, ?_⟩
  intro g hg
  rw [heq, List.mem_filter]
  rw [keepDate_eq_true_iff]
  simp [hg]

/-- A record created exactly at epoch 100. -/
def recAt100 : Dict := [("id", .vstr "a"), ("created_at", .vint 100)]

/-- A record created one unit before. -/
def recAt99 : Dict := [("id", .vstr "b"), ("created_at", .vint 99)]

/-- A record whose creation date cannot be parsed. -/
def recBadDate : Dict := [("id", .vstr "c"), ("created_at", .vstr "???")]

/-- A date parser for the witness: understands one fixed bound string. -/
def dparseWit : String → Option Int := fun s =>
  if s = "2024-01-01" then some 100 else none

/-- Witness for `C8_date_bounds_inclusive`: with `created_after` parsing to
100, the record dated exactly 100 is kept, the one dated 99 and the one with
an unparseable date are dropped. -/
theorem C8_date_bounds_inclusive_witness :
    (truthyStr (some "2024-01-01") = true ∧
     (parseBound dparseWit (some "2024-01-01")).isSome = true) ∧
    filter_by_date dparseWit [recAt100, recAt99, recBadDate]
      (some "2024-01-01") none = [recAt100] ∧
    (recAt100 ∈ filter_by_date dparseWit [recAt100, recAt99, recBadDate]
      (some "2024-01-01") none ↔
      ∃ dt, recDate dparseWit recAt100 = some dt ∧
        (∀ x, parseBound dparseWit (some "2024-01-01") = some x → x ≤ dt) ∧
        (∀ y, (none : Option Int) = some y → dt ≤ y)) := by
  refine ⟨⟨by decide, by decide⟩, by decide, ?_⟩
  have h := (C8_date_bounds_inclusive dparseWit [recAt100, recAt99, recBadDate]
    (some "2024-01-01") none (Or.inl (by decide)) (fun _ => by decide)
    (fun hc => by simp [truthyStr] at hc)).2 recAt100 (by decide)
  simpa [parseBound, dparseWit] using h

/-! ### Association-list and dict lemmas -/

/-- Keys after an update: unchanged when the key exists, appended otherwise. -/
theorem updateAssoc_keys {α : Type} (m : List (String × α)) (k : String) (v : α) :
    (updateAssoc m k v).map Prod.fst =
      if k ∈ m.map Prod.fst then m.map Prod.fst else m.map Prod.fst ++ [k] := by
  induction m with
  | nil => simp [updateAssoc]
  | cons p rest ih =>
      by_cases hk : p.1 = k
      · simp [updateAssoc, hk]
      · simp only [updateAssoc, if_neg hk, List.map_cons, ih, List.mem_cons]
        by_cases hmem : k ∈ rest.map Prod.fst
        · simp [hmem, hk, Ne.symm hk]
        · simp [hmem, hk, Ne.symm hk]

/-- Updates preserve distinctness of keys. -/
theorem updateAssoc_keys_nodup {α : Type} {m : List (String × α)}
    (h : (m.map Prod.fst).Nodup) (k : String) (v : α) :
    ((updateAssoc m k v).map Prod.fst).Nodup := by
  rw [updateAssoc_keys]
  by_cases hmem : k ∈ m.map Prod.fst
  · simpa [hmem] using h
  · simp [hmem, List.nodup_append, h]

/-- Every binding of an updated map is the new binding or an old one. -/
theorem mem_updateAssoc {α : Type} {m : List (String × α)} {k : String} {v : α}
    {p : String × α} (hp : p ∈ updateAssoc m k v) : p = (k, v) ∨ p ∈ m := by
  induction m with
  | nil => simpa [updateAssoc] using hp
  | cons q rest ih =>
      by_cases hk : q.1 = k
      · simp only [updateAssoc, if_pos hk, List.mem_cons] at hp
        rcases hp with hp | hp
        · left
          rw [hp, ← hk]
        · right
          simp [hp]
      · simp only [updateAssoc, if_neg hk, List.mem_cons] at hp
        rcases hp with hp | hp
        · right
          simp [hp]
        · rcases ih hp with hp' | hp'
          · left
            exact hp'
          · right
            simp [hp']

/-- A successful lookup is a binding of the map. -/
theorem lookupAssoc_mem {α : Type} {m : List (String × α)} {k : String} {v : α}
    (h : lookupAssoc m k = some v) : (k, v) ∈ m := by
  induction m with
  | nil => simp [lookupAssoc] at h
  | cons q rest ih =>
      by_cases hk : q.1 = k
      · simp only [lookupAssoc, if_pos hk] at h
        obtain rfl := Option.some_injective _ h
        have hq : (k, q.2) = q := by
          rw [← hk]
        rw [hq]
        exact List.mem_cons_self q rest
      · simp only [lookupAssoc, if_neg hk] at h
        exact List.mem_cons_of_mem _ (ih h)

/-- With distinct keys, a binding determines the lookup result. -/
theorem assoc_eq_of_key_eq {α : Type} {m : List (String × α)}
    (hm : (m.map Prod.fst).Nodup) {p q : String × α}
    (hp : p ∈ m) (hq : q ∈ m) (hk : p.1 = q.1) : p = q := by
  induction m with
  | nil => simp at hp
  | cons x rest ih =>
      simp only [List.map_cons, List.nodup_cons] at hm
      rcases List.mem_cons.mp hp with hp' | hp' <;>
        rcases List.mem_cons.mp hq with hq' | hq'
      · rw [hp', hq']
      · exfalso
        apply hm.1
        rw [← hp', hk]
        exact List.mem_map_of_mem Prod.fst hq'
      · exfalso
        apply hm.1
        rw [← hq', ← hk]
        exact List.mem_map_of_mem Prod.fst hp'
      · exact ih hm.2 hp' hq'

/-- Reading the key just set. -/
theorem dictGet?_dictSet_self (d : Dict) (k : String) (v : PyVal) :
    dictGet? (dictSet d k v) k = some v := by
  induction d with
  | nil => simp [dictSet, dictGet?]
  | cons p rest ih =>
      by_cases hk : p.1 = k
      · simp [dictSet, dictGet?, hk]
      · simp [dictSet, dictGet?, hk, ih]

/-- Reading another key after a set. -/
theorem dictGet?_dictSet_ne (d : Dict) (k k' : String) (v : PyVal)
    (h : k ≠ k') : dictGet? (dictSet d k v) k' = dictGet? d k' := by
  induction d with
  | nil => simp [dictSet, dictGet?, h]
  | cons p rest ih =>
      by_cases hk : p.1 = k
      · simp only [dictSet, if_pos hk, dictGet?]
        rw [hk]
        simp [h]
      · simp [dictSet, dictGet?, hk, ih]

/-- Reading another key after a pop. -/
theorem dictGet?_dictPop_ne (d : Dict) (k k' : String) (h : k ≠ k') :
    dictGet? (dictPop d k) k' = dictGet? d k' := by
  induction d with
  | nil => simp [dictPop]
  | cons p rest ih =>
      by_cases hk : p.1 = k
      · simp only [dictPop, if_pos hk, dictGet?]
        rw [hk]
        simp [h]
      · simp [dictPop, dictGet?, hk, ih]

/-- A successful read means the key is present. -/
theorem dictGet?_key_mem {d : Dict} {k : String} {v : PyVal}
    (h : dictGet? d k = some v) : k ∈ d.map Prod.fst := by
  induction d with
  | nil => simp [dictGet?] at h
  | cons p rest ih =>
      by_cases hk : p.1 = k
      · simp [← hk]
      · simp only [dictGet?, if_neg hk] at h
        simp [ih h]

/-- With distinct keys, popping a key removes it. -/
theorem dictGet?_dictPop_self {d : Dict} (hd : (d.map Prod.fst).Nodup)
    (k : String) : dictGet? (dictPop d k) k = none := by
  induction d with
  | nil => simp [dictPop, dictGet?]
  | cons p rest ih =>
      simp only [List.map_cons, List.nodup_cons] at hd
      by_cases hk : p.1 = k
      · simp only [dictPop, if_pos hk]
        cases hget : dictGet? rest k with
        | none => exact hget ▸ rfl
        | some v =>
            exact absurd (by rw [hk]; exact dictGet?_key_mem hget) hd.1
      · simp only [dictPop, if_neg hk, dictGet?]
        exact ih hd.2

/-! ### Slice and annotation lemmas -/

/-- Unfolding `String.mk`/`toList`. -/
theorem toList_mk (l : List Char) : (String.mk l).toList = l := rfl

/-- Reading a heap position other than the one set. -/
theorem heapGet_set_ne (h : Heap) (i j : Nat) (d : Dict) (hne : i ≠ j) :
    heapGet (h.set i d) j = heapGet h j := by
  unfold heapGet
  rw [List.getD_eq_getElem?_getD, List.getD_eq_getElem?_getD,
    List.getElem?_set_ne hne]

/-- Reading the heap position just set. -/
theorem heapGet_set_self (h : Heap) (i : Nat) (d : Dict) (hi : i < h.length) :
    heapGet (h.set i d) i = d := by
  unfold heapGet
  rw [List.getD_eq_getElem?_getD, List.getElem?_set_eq_of_lt _ hi]
  rfl

/-- Slicing after an `"..."` prefix with both indices shifted by 3 reads the
same characters. -/
theorem pySlice_ellipsis (s : String) (a b : Nat) :
    pySlice ("..." ++ s) (a + 3) (b + 3) = pySlice s a b := by
  unfold pySlice
  have h3 : ("..." ++ s).toList = '.' :: '.' :: '.' :: s.toList := rfl
  rw [h3]
  have hd : ('.' :: '.' :: '.' :: s.toList).drop (a + 3) = s.toList.drop a := by
    simp [List.drop_succ_cons]
  rw [hd]
  have hb : b + 3 - (a + 3) = b - a := by omega
  rw [hb]

/-- Re-slicing a slice with shifted indices reads the original slice. -/
theorem pySlice_pySlice (s : String) (start stop ds de : Nat)
    (h1 : start ≤ ds) (h2 : de ≤ stop) :
    pySlice (pySlice s start stop) (ds - start) (de - start) =
      pySlice s ds de := by
  unfold pySlice
  rw [toList_mk]
  congr 1
  rw [List.drop_take (stop - start) (ds - start), List.drop_drop]
  have h4 : start + (ds - start) = ds := by omega
  rw [h4, List.take_take]
  congr 1
  omega

/-- A Python slice is a contiguous substring of the sliced string. -/
theorem pySlice_infix (s : String) (a b : Nat) :
    s.toList = s.toList.take a ++ (pySlice s a b).toList ++
      (s.toList.drop a).drop (b - a) := by
  unfold pySlice
  simp only [toList_mk]
  rw [List.append_assoc, List.take_append_drop, List.take_append_drop]

/-- Field-level description of `annotate`: the score key is set; keys other
than the three `_`-keys are untouched; on a successful in-bounds alignment
the matched substring is the aligned slice of the index text, and the snippet
is the ±30-character context slice wrapped in ellipsis markers exactly when
truncated on the respective side; on a failed alignment the fallback stores
the lowercased query and a 60-character prefix. -/
theorem annotate_fields (align : String → String → Option (Nat × Nat))
    (q text : String) (score : Nat) (d : Dict) :
    dictGet? (annotate align q text score d) "_search_score" =
      some (.vint (score : Int)) ∧
    (∀ k, k ≠ "_search_score" → k ≠ "_matched_substring" → k ≠ "_match_snippet" →
      dictGet? (annotate align q text score d) k = dictGet? d k) ∧
    (∀ ds de, align q text = some (ds, de) → de ≤ strLen text →
      dictGet? (annotate align q text score d) "_matched_substring" =
        some (.vstr (pySlice text ds de)) ∧
      dictGet? (annotate align q text score d) "_match_snippet" =
        some (.vstr
          (if min (strLen text) (de + 30) < strLen text then
            (if 0 < ds - 30 then
              "..." ++ pySlice text (ds - 30) (min (strLen text) (de + 30))
            else pySlice text (ds - 30) (min (strLen text) (de + 30))) ++ "..."
          else
            (if 0 < ds - 30 then
              "..." ++ pySlice text (ds - 30) (min (strLen text) (de + 30))
            else pySlice text (ds - 30) (min (strLen text) (de + 30)))))) ∧
    (align q text = none →
      dictGet? (annotate align q text score d) "_matched_substring" =
        some (.vstr q) ∧
      dictGet? (annotate align q text score d) "_match_snippet" =
        some (.vstr (pySlice text 0 60 ++ "..."))) := by
  unfold annotate
  cases hal : align q text with
  | none =>
      refine ⟨?_, ?_, ?_, ?_⟩
      · rw [dictGet?_dictSet_ne _ _ _ _ (by decide),
          dictGet?_dictSet_ne _ _ _ _ (by decide), dictGet?_dictSet_self]
      · intro k h1 h2 h3
        rw [dictGet?_dictSet_ne _ _ _ _ (Ne.symm h3),
          dictGet?_dictSet_ne _ _ _ _ (Ne.symm h2),
          dictGet?_dictSet_ne _ _ _ _ (Ne.symm h1)]
      · intro ds de hds
        simp at hds
      · intro _
        constructor
        · rw [dictGet?_dictSet_ne _ _ _ _ (by decide), dictGet?_dictSet_self]
        · rw [dictGet?_dictSet_self]
  | some p =>
      obtain ⟨ds, de⟩ := p
      dsimp only
      refine ⟨?_, ?_, ?_, ?_⟩
      · rw [dictGet?_dictSet_ne _ _ _ _ (by decide),
          dictGet?_dictSet_ne _ _ _ _ (by decide),
          dictGet?_dictSet_ne _ _ _ _ (by decide), dictGet?_dictSet_self]
      · intro k h1 h2 h3
        rw [dictGet?_dictSet_ne _ _ _ _ (Ne.symm h2),
          dictGet?_dictSet_ne _ _ _ _ (Ne.symm h3),
          dictGet?_dictSet_ne _ _ _ _ (Ne.symm h2),
          dictGet?_dictSet_ne _ _ _ _ (Ne.symm h1)]
      · intro ds' de' hds hde
        have hp : ds = ds' ∧ de = de' := by simpa using hds
        obtain ⟨rfl, rfl⟩ := hp
        constructor
        · rw [dictGet?_dictSet_self]
          congr 2
          by_cases hstart : 0 < ds - 30
          · rw [if_pos hstart]
            rw [pySlice_ellipsis]
            exact pySlice_pySlice text (ds - 30) (min (strLen text) (de + 30))
              ds de (by omega) (by omega)
          · rw [if_neg hstart]
            exact pySlice_pySlice text (ds - 30) (min (strLen text) (de + 30))
              ds de (by omega) (by omega)
        · rw [dictGet?_dictSet_ne _ _ _ _ (by decide), dictGet?_dictSet_self]
          congr 2
          by_cases hstart : 0 < ds - 30 <;>
            by_cases hstop : min (strLen text) (de + 30) < strLen text <;>
            simp [hstart, hstop]
      · intro hcon
        simp at hcon

/-! ### Index, id-map and match-loop lemmas -/

/-- Invariant of `id_to_gpt`: every binding maps the id of the record at its
position, and the position is one of the searched positions. -/
theorem buildIdMap_mem (h : Heap) (pos : List Nat) :
    ∀ p ∈ buildIdMap h pos, p.1 = idOfD (heapGet h p.2) ∧ p.2 ∈ pos := by
  unfold buildIdMap
  suffices hgen : ∀ (l : List Nat) (m : List (String × Nat)),
      (∀ p ∈ m, p.1 = idOfD (heapGet h p.2) ∧ p.2 ∈ pos) →
      (∀ j ∈ l, j ∈ pos) →
      ∀ p ∈ l.foldl (fun m j => updateAssoc m (idOfD (heapGet h j)) j) m,
        p.1 = idOfD (heapGet h p.2) ∧ p.2 ∈ pos by
    exact hgen pos [] (by simp) (fun _ hj => hj)
  intro l
  induction l with
  | nil => intro m hm _ p hp; exact hm p hp
  | cons j rest ih =>
      intro m hm hl p hp
      refine ih _ ?_ (fun x hx => hl x (List.mem_cons_of_mem _ hx)) p hp
      intro q hq
      rcases mem_updateAssoc hq with hq' | hq'
      · rw [hq']
        exact ⟨rfl, hl j (List.mem_cons_self _ _)⟩
      · exact hm q hq'

/-- Two bindings of `id_to_gpt` with the same position have the same id. -/
theorem buildIdMap_inj (h : Heap) (pos : List Nat) :
    ∀ i₁ i₂ j, (i₁, j) ∈ buildIdMap h pos → (i₂, j) ∈ buildIdMap h pos →
      i₁ = i₂ := by
  intro i₁ i₂ j h1 h2
  have e1 := (buildIdMap_mem h pos _ h1).1
  have e2 := (buildIdMap_mem h pos _ h2).1
  simp only at e1 e2
  rw [e1, e2]

/-- Positions of `id_to_gpt` bindings address existing records. -/
theorem buildIdMap_lt (h : Heap) (pos : List Nat)
    (hpos : ∀ j ∈ pos, j < h.length) :
    ∀ p ∈ buildIdMap h pos, p.2 < h.length := by
  intro p hp
  exact hpos _ (buildIdMap_mem h pos p hp).2

/-- Keys of a fold of `updateAssoc` over an initially distinct map stay
distinct. -/
theorem foldl_updateAssoc_nodup {α β : Type} (f : β → String) (g : β → α) :
    ∀ (l : List β) (m : List (String × α)), (m.map Prod.fst).Nodup →
      ((l.foldl (fun m x => updateAssoc m (f x) (g x)) m).map Prod.fst).Nodup := by
  intro l
  induction l with
  | nil => intro m hm; exact hm
  | cons x rest ih => intro m hm; exact ih _ (updateAssoc_keys_nodup hm _ _)

/-- `id_to_gpt` has distinct keys. -/
theorem buildIdMap_keys_nodup (h : Heap) (pos : List Nat) :
    ((buildIdMap h pos).map Prod.fst).Nodup := by
  unfold buildIdMap
  exact foldl_updateAssoc_nodup (fun j => idOfD (heapGet h j)) (fun j => j)
    pos [] (by simp)

/-- The built search index has distinct keys (it is a Python dict). -/
theorem buildIndex_keys_nodup (flatten : Dict → String) (h : Heap)
    (pos : List Nat) : ((buildIndex flatten h pos).map Prod.fst).Nodup := by
  unfold buildIndex
  suffices hgen : ∀ (l : List Nat) (m : SIndex), (m.map Prod.fst).Nodup →
      ((l.foldl (fun ix j =>
        match idOf? (heapGet h j) with
        | some gid => if gid ≠ "" then updateAssoc ix gid (flatten (heapGet h j)) else ix
        | none => ix) m).map Prod.fst).Nodup by
    exact hgen pos [] (by simp)
  intro l
  induction l with
  | nil => intro m hm; exact hm
  | cons j rest ih =>
      intro m hm
      refine ih _ ?_
      dsimp only
      cases hid : idOf? (heapGet h j) with
      | none => exact hm
      | some gid =>
          by_cases hne : gid = ""
          · simpa [hne] using hm
          · simpa [hne] using updateAssoc_keys_nodup hm gid (flatten (heapGet h j))

/-- Insertion keeps the list a permutation. -/
theorem insertByScore_perm (x : String × Nat × String) :
    ∀ l : List (String × Nat × String), (insertByScore x l).Perm (x :: l) := by
  intro l
  induction l with
  | nil => simp [insertByScore]
  | cons y ys ih =>
      by_cases hy : y.2.1 < x.2.1
      · simp [insertByScore, hy]
      · simp only [insertByScore, if_neg hy]
        exact (ih.cons y).trans (List.Perm.swap x y ys)

/-- The stable sort is a permutation of its input. -/
theorem sortByScoreDesc_perm :
    ∀ l : List (String × Nat × String), (sortByScoreDesc l).Perm l := by
  intro l
  induction l with
  | nil => simp [sortByScoreDesc]
  | cons x xs ih => exact (insertByScore_perm x _).trans (ih.cons x)

/-- Membership in the extracted matches: exactly the scored index entries at
or above the cutoff. -/
theorem mem_extract (scorer : String → String → Nat) (q : String) (ix : SIndex)
    (cutoff : Nat) (t : String × Nat × String) :
    t ∈ extract scorer q ix cutoff ↔
      t ∈ ix.map (fun e => (e.2, scorer q e.2, e.1)) ∧ cutoff ≤ t.2.1 := by
  unfold extract
  rw [(sortByScoreDesc_perm _).mem_iff, List.mem_filter]
  simp

/-- The ids of the scored entries are the index keys. -/
theorem scored_ids (scorer : String → String → Nat) (q : String) (ix : SIndex) :
    (ix.map (fun e => (e.2, scorer q e.2, e.1))).map (fun t => t.2.2) =
      ix.map Prod.fst := by
  simp [List.map_map, Function.comp]

/-- With a distinct-key index, the extracted match ids are distinct. -/
theorem extract_ids_nodup (scorer : String → String → Nat) (q : String)
    (ix : SIndex) (cutoff : Nat) (hix : (ix.map Prod.fst).Nodup) :
    ((extract scorer q ix cutoff).map (fun t => t.2.2)).Nodup := by
  unfold extract
  have hperm := sortByScoreDesc_perm
    ((ix.map (fun e => (e.2, scorer q e.2, e.1))).filter (fun t => cutoff ≤ t.2.1))
  refine ((hperm.map (fun t => t.2.2)).symm).nodup ?_
  have hsub : List.Sublist
      (((ix.map (fun e => (e.2, scorer q e.2, e.1))).filter
        (fun t => cutoff ≤ t.2.1)).map (fun t => t.2.2))
      (((ix.map (fun e => (e.2, scorer q e.2, e.1)))).map (fun t => t.2.2)) :=
    (List.filter_sublist _).map _
  rw [scored_ids] at hsub
  exact hsub.nodup hix

/-- With a distinct-key index, a scored entry is determined by its id. -/
theorem scored_eq_of_id_eq (scorer : String → String → Nat) (q : String)
    (ix : SIndex) (hix : (ix.map Prod.fst).Nodup)
    {t t' : String × Nat × String}
    (ht : t ∈ ix.map (fun e => (e.2, scorer q e.2, e.1)))
    (ht' : t' ∈ ix.map (fun e => (e.2, scorer q e.2, e.1)))
    (hid : t.2.2 = t'.2.2) : t = t' := by
  obtain ⟨e, he, rfl⟩ := List.mem_map.mp ht
  obtain ⟨e', he', rfl⟩ := List.mem_map.mp ht'
  simp only at hid
  rw [assoc_eq_of_key_eq hix he he' hid]

/-- The positions the match loop resolves: one per match whose id is a key of
`id_to_gpt`. -/
def hitPositions (idMap : List (String × Nat))
    (ms : List (String × Nat × String)) : List Nat :=
  ms.filterMap (fun e => lookupAssoc idMap e.2.2)

/-- The match loop returns the accumulator extended with the resolved
positions, in match order. -/
theorem processMatches_fst (align : String → String → Option (Nat × Nat))
    (q : String) (idMap : List (String × Nat)) :
    ∀ (ms : List (String × Nat × String)) (acc : List Nat) (h : Heap),
      (processMatches align q idMap ms acc h).1 = acc ++ hitPositions idMap ms := by
  intro ms
  induction ms with
  | nil => intro acc h; simp [processMatches, hitPositions]
  | cons e rest ih =>
      intro acc h
      obtain ⟨text, score, gid⟩ := e
      simp only [processMatches]
      cases hl : lookupAssoc idMap gid with
      | none => simp [ih, hitPositions, hl]
      | some j => simp [ih, hitPositions, hl]

/-- A heap position no match resolves to is left untouched by the loop. -/
theorem processMatches_untouched (align : String → String → Option (Nat × Nat))
    (q : String) (idMap : List (String × Nat)) :
    ∀ (ms : List (String × Nat × String)) (acc : List Nat) (h : Heap) (j : Nat),
      j ∉ hitPositions idMap ms →
      heapGet (processMatches align q idMap ms acc h).2 j = heapGet h j := by
  intro ms
  induction ms with
  | nil => intro acc h j _; simp [processMatches]
  | cons e rest ih =>
      intro acc h j hj
      obtain ⟨text, score, gid⟩ := e
      simp only [processMatches]
      cases hl : lookupAssoc idMap gid with
      | none =>
          refine ih acc h j ?_
          simpa [hitPositions, hl] using hj
      | some j₀ =>
          have hj₀ : j₀ ≠ j := by
            intro hcon
            exact hj (by simp [hitPositions, hl, hcon])
          have hj' : j ∉ hitPositions idMap rest := by
            intro hcon
            exact hj (by simp [hitPositions, hl] at hcon ⊢; exact Or.inr hcon)
          rw [ih _ _ j hj', heapGet_set_ne _ _ _ _ hj₀]
/-- For distinct match ids, the record at a resolved position is the original
record annotated with that match's text and score. -/
theorem processMatches_content (align : String → String → Option (Nat × Nat))
    (q : String) (idMap : List (String × Nat))
    (hinj : ∀ i₁ i₂ j, (i₁, j) ∈ idMap → (i₂, j) ∈ idMap → i₁ = i₂) :
    ∀ (ms : List (String × Nat × String)) (acc : List Nat) (h : Heap),
      ((ms.map (fun t => t.2.2)).Nodup) →
      ∀ e ∈ ms, ∀ j, lookupAssoc idMap e.2.2 = some j → j < h.length →
        heapGet (processMatches align q idMap ms acc h).2 j =
          annotate align q e.1 e.2.1 (heapGet h j) := by
  intro ms
  induction ms with
  | nil => intro acc h _ e he; simp at he
  | cons e₀ rest ih =>
      intro acc h hnd e he j hl hj
      obtain ⟨text₀, score₀, gid₀⟩ := e₀
      simp only [List.map_cons, List.nodup_cons] at hnd
      rcases List.mem_cons.mp he with rfl | he'
      · -- the head match annotates j and no later match touches it
        simp only at hl
        simp only [processMatches, hl]
        have hnot : j ∉ hitPositions idMap rest := by
          intro hcon
          obtain ⟨e', he', hle'⟩ := List.mem_filterMap.mp hcon
          have : e'.2.2 = gid₀ :=
            hinj e'.2.2 gid₀ j (lookupAssoc_mem hle') (lookupAssoc_mem hl)
          exact hnd.1 (this ▸ List.mem_map_of_mem (fun t => t.2.2) he')
        rw [processMatches_untouched align q idMap rest _ _ j hnot,
          heapGet_set_self _ _ _ hj]
      · -- a later match: the head's write hits a different position
        cases hl₀ : lookupAssoc idMap gid₀ with
        | none =>
            simp only [processMatches, hl₀]
            exact ih acc h hnd.2 e he' j hl hj
        | some j₀ =>
            have hne : j₀ ≠ j := by
              intro rfl'
              subst rfl'
              have : gid₀ = e.2.2 :=
                hinj gid₀ e.2.2 j₀ (lookupAssoc_mem hl₀) (lookupAssoc_mem hl)
              exact hnd.1 (this ▸ List.mem_map_of_mem (fun t => t.2.2) he')
            simp only [processMatches, hl₀]
            rw [ih _ _ hnd.2 e he' j hl (by simpa using hj),
              heapGet_set_ne _ _ _ _ hne]

/-- The resolved positions are distinct when the match ids are. -/
theorem hitPositions_nodup (idMap : List (String × Nat))
    (hinj : ∀ i₁ i₂ j, (i₁, j) ∈ idMap → (i₂, j) ∈ idMap → i₁ = i₂) :
    ∀ ms : List (String × Nat × String), ((ms.map (fun t => t.2.2)).Nodup) →
      (hitPositions idMap ms).Nodup := by
  intro ms
  induction ms with
  | nil => simp [hitPositions]
  | cons e₀ rest ih =>
      intro hnd
      simp only [List.map_cons, List.nodup_cons] at hnd
      cases hl₀ : lookupAssoc idMap e₀.2.2 with
      | none =>
          simpa [hitPositions, hl₀] using ih hnd.2
      | some j₀ =>
          have : j₀ ∉ hitPositions idMap rest := by
            intro hcon
            obtain ⟨e', he', hle'⟩ := List.mem_filterMap.mp hcon
            have he : e'.2.2 = e₀.2.2 :=
              hinj e'.2.2 e₀.2.2 j₀ (lookupAssoc_mem hle') (lookupAssoc_mem hl₀)
            exact hnd.1 (he ▸ List.mem_map_of_mem (fun t => t.2.2) he')
          simp only [hitPositions, List.filterMap_cons, hl₀]
          exact List.nodup_cons.mpr ⟨by simpa [hitPositions] using this, ih hnd.2⟩

/-- Every resolved position is a position of a searched record. -/
theorem hitPositions_mem (h : Heap) (pos : List Nat)
    (ms : List (String × Nat × String)) :
    ∀ j ∈ hitPositions (buildIdMap h pos) ms, j ∈ pos := by
  intro j hj
  obtain ⟨e, _, hle⟩ := List.mem_filterMap.mp hj
  exact (buildIdMap_mem h pos _ (lookupAssoc_mem hle)).2

/-- Normal form of a pure text search (no date bounds, truthy query). -/
theorem searchResults_query (flatten : Dict → String)
    (scorer : String → String → Nat) (align : String → String → Option (Nat × Nat))
    (dparse : String → Option Int) (h : Heap) (qs : String) (t : Nat)
    (c : Option SIndex) (hq : truthyStr (some qs) = true) :
    searchResults flatten scorer align dparse h (some qs) none none t c =
      (hitPositions (buildIdMap h (List.range h.length))
        (extract scorer (pyLower qs)
          (getOrBuildIndex flatten c h (List.range h.length)).1 t)).map
        (heapGet (processMatches align (pyLower qs)
          (buildIdMap h (List.range h.length))
          (extract scorer (pyLower qs)
            (getOrBuildIndex flatten c h (List.range h.length)).1 t)
          [] h).2) := by
  have hnone : truthyStr none = false := rfl
  unfold searchResults filter_and_search fuzzy_search
  simp [hq, hnone, processMatches_fst]

/-- Normal form of a search without a truthy query (no filtering happens). -/
theorem searchResults_noquery (flatten : Dict → String)
    (scorer : String → String → Nat) (align : String → String → Option (Nat × Nat))
    (dparse : String → Option Int) (h : Heap) (q : Option String) (t : Nat)
    (c : Option SIndex) (hq : truthyStr q = false) :
    searchResults flatten scorer align dparse h q none none t c =
      (List.range h.length).map (heapGet h) := by
  have hnone : truthyStr none = false := rfl
  unfold searchResults filter_and_search
  simp [hq, hnone]

/-- C7: search threshold monotonicity — for a fixed query, record set and
search-cache state, every record returned by `filter_and_search` at the
higher threshold is also returned at the lower one (raising the threshold
never adds a record); in particular the result set at threshold 90 is a
subset of the result set at threshold 70. -/
theorem C7_threshold_monotone (flatten : Dict → String)
    (scorer : String → String → Nat)
    (align : String → String → Option (Nat × Nat))
    (dparse : String → Option Int) (h : Heap) (q : Option String)
    (t₁ t₂ : Nat) (c : Option SIndex)
    (ht : t₁ ≤ t₂)
    (hc : ∀ ix, c = some ix → (ix.map Prod.fst).Nodup) :
    ∀ d, d ∈ searchResults flatten scorer align dparse h q none none t₂ c →
      d ∈ searchResults flatten scorer align dparse h q none none t₁ c := by
  intro d hd
  by_cases hq : truthyStr q = true
  · obtain ⟨qs, rfl⟩ : ∃ qs, q = some qs := by
      cases q with
      | none => simp [truthyStr] at hq
      | some qs => exact ⟨qs, rfl⟩
    rw [searchResults_query flatten scorer align dparse h qs t₂ c hq] at hd
    rw [searchResults_query flatten scorer align dparse h qs t₁ c hq]
    set pos := List.range h.length with hpos
    set ix := (getOrBuildIndex flatten c h pos).1 with hix
    have hixnodup : (ix.map Prod.fst).Nodup := by
      cases hcc : c with
      | none =>
          rw [hix, hcc]
          exact buildIndex_keys_nodup flatten h pos
      | some ix' =>
          have := hc ix' hcc
          rw [hix, hcc]
          exact this
    set idMap := buildIdMap h pos with hidm
    have hinj : ∀ i₁ i₂ j, (i₁, j) ∈ idMap → (i₂, j) ∈ idMap → i₁ = i₂ :=
      buildIdMap_inj h pos
    obtain ⟨j, hj, rfl⟩ := List.mem_map.mp hd
    obtain ⟨e, he₂, hle⟩ := List.mem_filterMap.mp hj
    have hes := (mem_extract scorer (pyLower qs) ix t₂ e).mp he₂
    have he₁ : e ∈ extract scorer (pyLower qs) ix t₁ :=
      (mem_extract scorer (pyLower qs) ix t₁ e).mpr ⟨hes.1, le_trans ht hes.2⟩
    have hjlt : j < h.length := by
      have hmem := (buildIdMap_mem h pos _ (lookupAssoc_mem hle)).2
      simpa [hpos, List.mem_range] using hmem
    have hnd₂ : ((extract scorer (pyLower qs) ix t₂).map (fun t => t.2.2)).Nodup :=
      extract_ids_nodup scorer (pyLower qs) ix t₂ hixnodup
    have hnd₁ : ((extract scorer (pyLower qs) ix t₁).map (fun t => t.2.2)).Nodup :=
      extract_ids_nodup scorer (pyLower qs) ix t₁ hixnodup
    have hcontent₂ := processMatches_content align (pyLower qs) idMap hinj
      (extract scorer (pyLower qs) ix t₂) [] h hnd₂ e he₂ j hle hjlt
    have hcontent₁ := processMatches_content align (pyLower qs) idMap hinj
      (extract scorer (pyLower qs) ix t₁) [] h hnd₁ e he₁ j hle hjlt
    refine List.mem_map.mpr ⟨j, ?_, ?_⟩
    · exact List.mem_filterMap.mpr ⟨e, he₁, hle⟩
    · rw [hcontent₁, hcontent₂]
  · have hq' : truthyStr q = false := by simpa using hq
    rw [searchResults_noquery flatten scorer align dparse h q t₂ c hq'] at hd
    rw [searchResults_noquery flatten scorer align dparse h q t₁ c hq']
    exact hd

/-- Concrete serializer for witnesses: the record's `"desc"` field. -/
def flattenWit : Dict → String := fun d =>
  match dictGet? d "desc" with
  | some (.vstr s) => s
  | _ => ""

/-- Concrete scorer for witnesses. -/
def scorerWit : String → String → Nat := fun _ t =>
  if t = "hello world" then 95 else 80

/-- Concrete alignment for witnesses: characters 1–4 of the index text. -/
def alignWit : String → String → Option (Nat × Nat) := fun _ _ => some (1, 4)

/-- Date parser that never parses (no date bounds are used here). -/
def dparseNone : String → Option Int := fun _ => none

/-- Two records for the search witnesses. -/
def heapWit : Heap :=
  [[("id", .vstr "g1"), ("desc", .vstr "hello world")],
   [("id", .vstr "g2"), ("desc", .vstr "other text")]]

/-- Witness for `C7_threshold_monotone`: the record matched at threshold 90 is
also in the result set at threshold 70. -/
theorem C7_threshold_monotone_witness :
    ((70 : Nat) ≤ 90 ∧
     (searchResults flattenWit scorerWit alignWit dparseNone heapWit
        (some "query") none none 90 none).getD 0 [] ∈
       searchResults flattenWit scorerWit alignWit dparseNone heapWit
         (some "query") none none 90 none) ∧
    (searchResults flattenWit scorerWit alignWit dparseNone heapWit
       (some "query") none none 90 none).getD 0 [] ∈
      searchResults flattenWit scorerWit alignWit dparseNone heapWit
        (some "query") none none 70 none :=
  ⟨⟨by decide, by decide⟩,
   C7_threshold_monotone flattenWit scorerWit alignWit dparseNone heapWit
     (some "query") 70 90 none (by decide) (fun ix hix => by simp at hix) _
     (by decide)⟩

/-- The match loop preserves the heap length (mutation only). -/
theorem processMatches_length (align : String → String → Option (Nat × Nat))
    (q : String) (idMap : List (String × Nat)) :
    ∀ (ms : List (String × Nat × String)) (acc : List Nat) (h : Heap),
      (processMatches align q idMap ms acc h).2.length = h.length := by
  intro ms
  induction ms with
  | nil => intro acc h; simp [processMatches]
  | cons e rest ih =>
      intro acc h
      obtain ⟨text, score, gid⟩ := e
      simp only [processMatches]
      cases hl : lookupAssoc idMap gid with
      | none => exact ih acc h
      | some j => rw [ih]; exact List.length_set h j _

/-- Normal form of `filter_and_search` for a pure text search. -/
theorem filter_and_search_query (flatten : Dict → String)
    (scorer : String → String → Nat)
    (align : String → String → Option (Nat × Nat))
    (dparse : String → Option Int) (h : Heap) (qs : String) (t : Nat)
    (c : Option SIndex) (hq : truthyStr (some qs) = true) :
    filter_and_search flatten scorer align dparse h (some qs) none none t c =
      (hitPositions (buildIdMap h (List.range h.length))
        (extract scorer (pyLower qs)
          (getOrBuildIndex flatten c h (List.range h.length)).1 t),
       (processMatches align (pyLower qs)
         (buildIdMap h (List.range h.length))
         (extract scorer (pyLower qs)
           (getOrBuildIndex flatten c h (List.range h.length)).1 t)
         [] h).2,
       (getOrBuildIndex flatten c h (List.range h.length)).2) := by
  have hnone : truthyStr none = false := rfl
  unfold filter_and_search fuzzy_search
  simp [hq, hnone, processMatches_fst]

/-- The pop loop of `search_with_highlights` leaves positions it does not
visit untouched. -/
theorem popLoop_untouched (patterns : List String) :
    ∀ (l : List Nat) (acc : List (Nat × PyVal × List String)) (h : Heap) (j : Nat),
      j ∉ l →
      heapGet (l.foldl (fun acc j =>
        let vd := popScoreVal (heapGet acc.2 j)
        (acc.1 ++ [(j, vd.1, patterns)], acc.2.set j vd.2)) (acc, h)).2 j =
        heapGet h j := by
  intro l
  induction l with
  | nil => intro acc h j _; rfl
  | cons j₀ rest ih =>
      intro acc h j hj
      simp only [List.mem_cons, not_or] at hj
      simp only [List.foldl_cons]
      rw [ih _ _ j hj.2, heapGet_set_ne _ _ _ _ (Ne.symm hj.1)]

/-- For distinct positions, the pop loop replaces each visited record by its
score-popped version. -/
theorem popLoop_content (patterns : List String) :
    ∀ (l : List Nat) (acc : List (Nat × PyVal × List String)) (h : Heap),
      l.Nodup →
      ∀ j ∈ l, j < h.length →
      heapGet (l.foldl (fun acc j =>
        let vd := popScoreVal (heapGet acc.2 j)
        (acc.1 ++ [(j, vd.1, patterns)], acc.2.set j vd.2)) (acc, h)).2 j =
        (popScoreVal (heapGet h j)).2 := by
  intro l
  induction l with
  | nil => intro acc h _ j hj; simp at hj
  | cons j₀ rest ih =>
      intro acc h hnd j hj hjlt
      simp only [List.nodup_cons] at hnd
      simp only [List.foldl_cons]
      rcases List.mem_cons.mp hj with rfl | hj'
      · rw [popLoop_untouched patterns rest _ _ j hnd.1,
          heapGet_set_self _ _ _ hjlt]
      · have hne : j₀ ≠ j := by
          intro hcon
          exact hnd.1 (hcon ▸ hj')
        rw [ih _ _ hnd.2 j hj' (by simpa using hjlt), heapGet_set_ne _ _ _ _ hne]

/-- Every element the pop loop appends carries a position it visited and the
constant highlight patterns. -/
theorem popLoop_elems (patterns : List String) :
    ∀ (l : List Nat) (acc : List (Nat × PyVal × List String)) (h : Heap),
      ∀ e ∈ (l.foldl (fun acc j =>
        let vd := popScoreVal (heapGet acc.2 j)
        (acc.1 ++ [(j, vd.1, patterns)], acc.2.set j vd.2)) (acc, h)).1,
        e ∈ acc ∨ (e.1 ∈ l ∧ e.2.2 = patterns) := by
  intro l
  induction l with
  | nil => intro acc h e he; exact Or.inl he
  | cons j₀ rest ih =>
      intro acc h e he
      simp only [List.foldl_cons] at he
      rcases ih _ _ e he with he' | he'
      · rcases List.mem_append.mp he' with h1 | h1
        · exact Or.inl h1
        · simp only [List.mem_singleton] at h1
          rw [h1]
          exact Or.inr ⟨List.mem_cons_self _ _, rfl⟩
      · exact Or.inr ⟨List.mem_cons_of_mem _ he'.1, he'.2⟩

/-- `dictSet` is the generic insertion-ordered association update. -/
theorem dictSet_eq_updateAssoc (d : Dict) (k : String) (v : PyVal) :
    dictSet d k v = updateAssoc d k v := by
  induction d with
  | nil => rfl
  | cons p rest ih => by_cases hk : p.1 = k <;> simp [dictSet, updateAssoc, hk, ih]

/-- Setting a key preserves distinctness of keys. -/
theorem dictSet_keys_nodup {d : Dict} (hd : (d.map Prod.fst).Nodup)
    (k : String) (v : PyVal) : ((dictSet d k v).map Prod.fst).Nodup := by
  rw [dictSet_eq_updateAssoc]
  exact updateAssoc_keys_nodup hd k v

/-- Annotation preserves distinctness of keys. -/
theorem annotate_keys_nodup (align : String → String → Option (Nat × Nat))
    (q text : String) (score : Nat) {d : Dict}
    (hd : (d.map Prod.fst).Nodup) :
    ((annotate align q text score d).map Prod.fst).Nodup := by
  unfold annotate
  cases align q text with
  | none =>
      exact dictSet_keys_nodup (dictSet_keys_nodup (dictSet_keys_nodup hd _ _) _ _) _ _
  | some p =>
      obtain ⟨ds, de⟩ := p
      exact dictSet_keys_nodup (dictSet_keys_nodup (dictSet_keys_nodup
        (dictSet_keys_nodup hd _ _) _ _) _ _) _ _

/-- An annotated record carries all three search keys. -/
theorem annotate_hasKeys (align : String → String → Option (Nat × Nat))
    (q text : String) (score : Nat) (d : Dict) :
    hasKey (annotate align q text score d) "_search_score" = true ∧
    hasKey (annotate align q text score d) "_matched_substring" = true ∧
    hasKey (annotate align q text score d) "_match_snippet" = true := by
  unfold hasKey annotate
  cases align q text with
  | none =>
      refine ⟨?_, ?_, ?_⟩
      · rw [dictGet?_dictSet_ne _ _ _ _ (by decide),
          dictGet?_dictSet_ne _ _ _ _ (by decide), dictGet?_dictSet_self]
        rfl
      · rw [dictGet?_dictSet_ne _ _ _ _ (by decide), dictGet?_dictSet_self]
        rfl
      · rw [dictGet?_dictSet_self]
        rfl
  | some p =>
      obtain ⟨ds, de⟩ := p
      refine ⟨?_, ?_, ?_⟩
      · rw [dictGet?_dictSet_ne _ _ _ _ (by decide),
          dictGet?_dictSet_ne _ _ _ _ (by decide),
          dictGet?_dictSet_ne _ _ _ _ (by decide), dictGet?_dictSet_self]
        rfl
      · rw [dictGet?_dictSet_self]
        rfl
      · rw [dictGet?_dictSet_ne _ _ _ _ (by decide), dictGet?_dictSet_self]
        rfl

/-- On a record carrying a score, `pop` returns the dict without the key. -/
theorem popScoreVal_snd {d : Dict} (hd : hasKey d "_search_score" = true) :
    (popScoreVal d).2 = dictPop d "_search_score" := by
  unfold popScoreVal
  unfold hasKey at hd
  cases hg : dictGet? d "_search_score" with
  | none => rw [hg] at hd; simp at hd
  | some v => rfl

/-- A single record for the C9 instance. -/
def heapC9 : Heap := [[("id", .vstr "g1"), ("desc", .vstr "hello world")]]

/-- Counterexample to C9 as stated: on a concrete search the highlight
pattern returned by `search_with_highlights` is the (stripped, original-case)
query `"QUERY"`, while the alignment-derived matched substring of the match is
`"ell"` — the highlight substrings come from the query string, not from the
alignment of the query against the flattened index text. -/
theorem C9_counterexample :
    (search_with_highlights flattenWit scorerWit alignWit dparseNone heapC9
      "QUERY " 70 none).1 = [(0, .vint 95, ["QUERY"])] ∧
    dictGet? (heapGet (search_with_highlights flattenWit scorerWit alignWit
      dparseNone heapC9 "QUERY " 70 none).2.1 0) "_matched_substring" =
      some (.vstr "ell") ∧
    (["QUERY"] : List String) ≠ ["ell"] :=
  ⟨by decide, by decide, by decide⟩

/-- C9 amended claim: for every match, the matched-substring location, the
bounded-width context snippet (with ellipsis markers exactly when truncated)
and the per-record highlighted substring stored in `_matched_substring` are
derived purely from the alignment of the (lowercased) query against the
record's flattened index text — in particular the stored substring is the
aligned slice of that text; the highlight patterns returned by
`search_with_highlights`, however, are the stripped query itself, not the
alignment-derived substring (see the counterexample). -/
theorem C9_match_annotations (flatten : Dict → String)
    (scorer : String → String → Nat)
    (align : String → String → Option (Nat × Nat))
    (dparse : String → Option Int) (h : Heap) (qs : String) (t : Nat)
    (c : Option SIndex) (hq : truthyStr (some qs) = true)
    (hc : ∀ ix, c = some ix → (ix.map Prod.fst).Nodup) :
    (∀ j ∈ (filter_and_search flatten scorer align dparse h (some qs)
        none none t c).1,
      ∃ text score gid,
        (text, score, gid) ∈ extract scorer (pyLower qs)
          (getOrBuildIndex flatten c h (List.range h.length)).1 t ∧
        heapGet (filter_and_search flatten scorer align dparse h (some qs)
          none none t c).2.1 j =
          annotate align (pyLower qs) text score (heapGet h j) ∧
        (∀ ds de, align (pyLower qs) text = some (ds, de) → de ≤ strLen text →
          dictGet? (heapGet (filter_and_search flatten scorer align dparse h
            (some qs) none none t c).2.1 j) "_matched_substring" =
            some (.vstr (pySlice text ds de)) ∧
          text.toList = text.toList.take ds ++ (pySlice text ds de).toList ++
            ((text.toList.drop ds).drop (de - ds)) ∧
          dictGet? (heapGet (filter_and_search flatten scorer align dparse h
            (some qs) none none t c).2.1 j) "_match_snippet" =
            some (.vstr
              (if min (strLen text) (de + 30) < strLen text then
                (if 0 < ds - 30 then
                  "..." ++ pySlice text (ds - 30) (min (strLen text) (de + 30))
                else pySlice text (ds - 30) (min (strLen text) (de + 30))) ++ "..."
              else
                (if 0 < ds - 30 then
                  "..." ++ pySlice text (ds - 30) (min (strLen text) (de + 30))
                else pySlice text (ds - 30) (min (strLen text) (de + 30))))))) ∧
    (∀ e ∈ (search_with_highlights flatten scorer align dparse h qs t c).1,
      e.2.2 = if pyStrip qs ≠ "" then [pyStrip qs] else []) := by
  constructor
  · rw [filter_and_search_query flatten scorer align dparse h qs t c hq]
    intro j hj
    set pos := List.range h.length with hpos
    set ix := (getOrBuildIndex flatten c h pos).1 with hix
    have hixnodup : (ix.map Prod.fst).Nodup := by
      cases hcc : c with
      | none =>
          rw [hix, hcc]
          exact buildIndex_keys_nodup flatten h pos
      | some ix' =>
          have := hc ix' hcc
          rw [hix, hcc]
          exact this
    obtain ⟨e, he, hle⟩ := List.mem_filterMap.mp hj
    obtain ⟨text, score, gid⟩ := e
    have hjlt : j < h.length := by
      have hmem := (buildIdMap_mem h pos _ (lookupAssoc_mem hle)).2
      simpa [hpos, List.mem_range] using hmem
    have hnd : ((extract scorer (pyLower qs) ix t).map (fun t => t.2.2)).Nodup :=
      extract_ids_nodup scorer (pyLower qs) ix t hixnodup
    have hcontent := processMatches_content align (pyLower qs)
      (buildIdMap h pos) (buildIdMap_inj h pos)
      (extract scorer (pyLower qs) ix t) [] h hnd _ he j hle hjlt
    refine ⟨text, score, gid, he, hcontent, ?_⟩
    intro ds de hal hde
    obtain ⟨_, _, h3, _⟩ :=
      annotate_fields align (pyLower qs) text score (heapGet h j)
    obtain ⟨hms, hsn⟩ := h3 ds de hal hde
    rw [hcontent]
    exact ⟨hms, pySlice_infix text ds de, hsn⟩
  · unfold search_with_highlights
    intro e he
    have := popLoop_elems
      (if pyStrip qs ≠ "" then [pyStrip qs] else [])
      (filter_and_search flatten scorer align dparse h (some qs) none none t c).1
      [] (filter_and_search flatten scorer align dparse h (some qs) none none t c).2.1
      e (by exact he)
    rcases this with h0 | h1
    · simp at h0
    · exact h1.2

/-- Witness for `C9_match_annotations` at the concrete search of the
counterexample instance: the output triple's highlight patterns equal the
stripped query. -/
theorem C9_match_annotations_witness :
    (truthyStr (some "QUERY ") = true ∧
     ((0 : Nat), PyVal.vint 95, ["QUERY"]) ∈
       (search_with_highlights flattenWit scorerWit alignWit dparseNone heapC9
         "QUERY " 70 none).1) ∧
    (((0 : Nat), PyVal.vint 95, ["QUERY"]) : Nat × PyVal × List String).2.2 =
      (if pyStrip "QUERY " ≠ "" then [pyStrip "QUERY "] else []) :=
  ⟨⟨by decide, by decide⟩,
   (C9_match_annotations flattenWit scorerWit alignWit dparseNone heapC9
      "QUERY " 70 none (by decide) (fun ix hix => by simp at hix)).2 _
     (by decide)⟩

/-- C10: the search operations mutate their input.  For every record that
matches a text query, `filter_and_search` adds the keys `"_search_score"`,
`"_matched_substring"` and `"_match_snippet"` to the caller's record object in
place (leaving every other key unchanged, and non-matching records untouched),
so a search with at least one match does not leave the input record set
unchanged; `search_with_highlights` removes `"_search_score"` again but leaves
the other two keys on the record. -/
theorem C10_search_mutates_records (flatten : Dict → String)
    (scorer : String → String → Nat)
    (align : String → String → Option (Nat × Nat))
    (dparse : String → Option Int) (h : Heap) (qs : String) (t : Nat)
    (c : Option SIndex) (hq : truthyStr (some qs) = true)
    (hc : ∀ ix, c = some ix → (ix.map Prod.fst).Nodup)
    (hclean : ∀ d ∈ h, dictGet? d "_matched_substring" = none)
    (hkeys : ∀ d ∈ h, (d.map Prod.fst).Nodup) :
    (∀ j ∈ (filter_and_search flatten scorer align dparse h (some qs)
        none none t c).1,
      hasKey (heapGet (filter_and_search flatten scorer align dparse h
        (some qs) none none t c).2.1 j) "_search_score" = true ∧
      hasKey (heapGet (filter_and_search flatten scorer align dparse h
        (some qs) none none t c).2.1 j) "_matched_substring" = true ∧
      hasKey (heapGet (filter_and_search flatten scorer align dparse h
        (some qs) none none t c).2.1 j) "_match_snippet" = true ∧
      (∀ k, k ≠ "_search_score" → k ≠ "_matched_substring" →
        k ≠ "_match_snippet" →
        dictGet? (heapGet (filter_and_search flatten scorer align dparse h
          (some qs) none none t c).2.1 j) k = dictGet? (heapGet h j) k) ∧
      heapGet (filter_and_search flatten scorer align dparse h (some qs)
        none none t c).2.1 j ≠ heapGet h j) ∧
    (∀ j, j ∉ (filter_and_search flatten scorer align dparse h (some qs)
        none none t c).1 →
      heapGet (filter_and_search flatten scorer align dparse h (some qs)
        none none t c).2.1 j = heapGet h j) ∧
    ((filter_and_search flatten scorer align dparse h (some qs)
        none none t c).1 ≠ [] →
      (filter_and_search flatten scorer align dparse h (some qs)
        none none t c).2.1 ≠ h) ∧
    (∀ e ∈ (search_with_highlights flatten scorer align dparse h qs t c).1,
      hasKey (heapGet (search_with_highlights flatten scorer align dparse h
        qs t c).2.1 e.1) "_search_score" = false ∧
      hasKey (heapGet (search_with_highlights flatten scorer align dparse h
        qs t c).2.1 e.1) "_matched_substring" = true ∧
      hasKey (heapGet (search_with_highlights flatten scorer align dparse h
        qs t c).2.1 e.1) "_match_snippet" = true) := by
  rw [filter_and_search_query flatten scorer align dparse h qs t c hq]
  set pos := List.range h.length with hpos
  set ix := (getOrBuildIndex flatten c h pos).1 with hix
  have hixnodup : (ix.map Prod.fst).Nodup := by
    cases hcc : c with
    | none =>
        rw [hix, hcc]
        exact buildIndex_keys_nodup flatten h pos
    | some ix' =>
        have := hc ix' hcc
        rw [hix, hcc]
        exact this
  set ms := extract scorer (pyLower qs) ix t with hms
  set idMap := buildIdMap h pos with hidm
  have hnd : (ms.map (fun t => t.2.2)).Nodup :=
    extract_ids_nodup scorer (pyLower qs) ix t hixnodup
  have hinj : ∀ i₁ i₂ j, (i₁, j) ∈ idMap → (i₂, j) ∈ idMap → i₁ = i₂ :=
    buildIdMap_inj h pos
  have hcore : ∀ j ∈ hitPositions idMap ms, j < h.length ∧
      ∃ text score gid, (text, score, gid) ∈ ms ∧
        heapGet (processMatches align (pyLower qs) idMap ms [] h).2 j =
          annotate align (pyLower qs) text score (heapGet h j) := by
    intro j hj
    obtain ⟨e, he, hle⟩ := List.mem_filterMap.mp hj
    obtain ⟨text, score, gid⟩ := e
    have hjlt : j < h.length := by
      have hmem := (buildIdMap_mem h pos _ (lookupAssoc_mem hle)).2
      simpa [hpos, List.mem_range] using hmem
    exact ⟨hjlt, text, score, gid, he,
      processMatches_content align (pyLower qs) idMap hinj ms [] h hnd _ he j
        hle hjlt⟩
  have hmemh : ∀ j, j < h.length → heapGet h j ∈ h := by
    intro j hjlt
    unfold heapGet
    rw [List.getD_eq_getElem h [] hjlt]
    exact List.getElem_mem hjlt
  have hmut : ∀ j ∈ hitPositions idMap ms,
      heapGet (processMatches align (pyLower qs) idMap ms [] h).2 j ≠
        heapGet h j := by
    intro j hj heq
    obtain ⟨hjlt, text, score, gid, hegid, hann⟩ := hcore j hj
    have hk := (annotate_hasKeys align (pyLower qs) text score (heapGet h j)).2.1
    rw [← hann, heq] at hk
    unfold hasKey at hk
    rw [hclean _ (hmemh j hjlt)] at hk
    simp at hk
  refine ⟨?_, ?_, ?_, ?_⟩
  · intro j hj
    obtain ⟨hjlt, text, score, gid, hegid, hann⟩ := hcore j hj
    obtain ⟨hk1, hk2, hk3⟩ := annotate_hasKeys align (pyLower qs) text score (heapGet h j)
    obtain ⟨_, hother, _, _⟩ :=
      annotate_fields align (pyLower qs) text score (heapGet h j)
    refine ⟨?_, ?_, ?_, ?_, hmut j hj⟩
    · rw [hann]; exact hk1
    · rw [hann]; exact hk2
    · rw [hann]; exact hk3
    · intro k hne1 hne2 hne3
      rw [hann]
      exact hother k hne1 hne2 hne3
  · intro j hj
    exact processMatches_untouched align (pyLower qs) idMap ms [] h j hj
  · intro hne heq
    dsimp only at hne heq
    obtain ⟨j, hj⟩ := List.exists_mem_of_ne_nil _ hne
    exact hmut j hj (by rw [heq])
  · unfold search_with_highlights
    rw [filter_and_search_query flatten scorer align dparse h qs t c hq]
    intro e he
    have helem := popLoop_elems
      (if pyStrip qs ≠ "" then [pyStrip qs] else [])
      (hitPositions idMap ms) []
      (processMatches align (pyLower qs) idMap ms [] h).2 e (by exact he)
    rcases helem with h0 | h1
    · simp at h0
    · obtain ⟨hjpos, _⟩ := h1
      obtain ⟨hjlt, text, score, gid, hegid, hann⟩ := hcore e.1 hjpos
      have hposnodup : (hitPositions idMap ms).Nodup :=
        hitPositions_nodup idMap hinj ms hnd
      have hlen : (processMatches align (pyLower qs) idMap ms [] h).2.length =
          h.length := processMatches_length align (pyLower qs) idMap ms [] h
      have hfinal := popLoop_content
        (if pyStrip qs ≠ "" then [pyStrip qs] else [])
        (hitPositions idMap ms) []
        (processMatches align (pyLower qs) idMap ms [] h).2 hposnodup e.1
        hjpos (by rw [hlen]; exact hjlt)
      have hpop : (popScoreVal (heapGet
          (processMatches align (pyLower qs) idMap ms [] h).2 e.1)).2 =
          dictPop (annotate align (pyLower qs) text score (heapGet h e.1))
            "_search_score" := by
        rw [hann]
        exact popScoreVal_snd
          (annotate_hasKeys align (pyLower qs) text score (heapGet h e.1)).1
      have hannnodup : ((annotate align (pyLower qs) text score
          (heapGet h e.1)).map Prod.fst).Nodup :=
        annotate_keys_nodup align (pyLower qs) text score
          (hkeys _ (hmemh e.1 hjlt))
      obtain ⟨hk1, hk2, hk3⟩ :=
        annotate_hasKeys align (pyLower qs) text score (heapGet h e.1)
      refine ⟨?_, ?_, ?_⟩
      · rw [hfinal, hpop]
        unfold hasKey
        rw [dictGet?_dictPop_self hannnodup]
        rfl
      · rw [hfinal, hpop]
        unfold hasKey
        rw [dictGet?_dictPop_ne _ _ _ (by decide)]
        exact hk2
      · rw [hfinal, hpop]
        unfold hasKey
        rw [dictGet?_dictPop_ne _ _ _ (by decide)]
        exact hk3

/-- Witness for `C10_search_mutates_records`: on the concrete one-record heap
the matched record gains `"_search_score"` in place and the input heap is not
left unchanged. -/
theorem C10_search_mutates_records_witness :
    (truthyStr (some "query") = true ∧
     (∀ d ∈ heapC9, dictGet? d "_matched_substring" = none) ∧
     (∀ d ∈ heapC9, (d.map Prod.fst).Nodup) ∧
     (0 : Nat) ∈ (filter_and_search flattenWit scorerWit alignWit dparseNone
       heapC9 (some "query") none none 70 none).1) ∧
    hasKey (heapGet (filter_and_search flattenWit scorerWit alignWit dparseNone
      heapC9 (some "query") none none 70 none).2.1 0) "_search_score" = true ∧
    (filter_and_search flattenWit scorerWit alignWit dparseNone heapC9
      (some "query") none none 70 none).2.1 ≠ heapC9 :=
  ⟨⟨by decide, by decide, by decide, by decide⟩,
   ((C10_search_mutates_records flattenWit scorerWit alignWit dparseNone heapC9
      "query" 70 none (by decide) (fun ix hix => by simp at hix) (by decide)
      (by decide)).1 0 (by decide)).1,
   (C10_search_mutates_records flattenWit scorerWit alignWit dparseNone heapC9
      "query" 70 none (by decide) (fun ix hix => by simp at hix) (by decide)
      (by decide)).2.2.1 (by decide)⟩
